import Mathlib

/-!
Shallow embedding of the Form-Submission-Spam-Lead-Classifier repository
(src/utils/text_cleaning.py, src/utils/sanitize_raw_csv.py, src/process_data.py)
and proofs about the spec claims.

Modelling conventions:
* Python strings are Lean `String`s, processed as `List Char`.
* Python dynamic values (a field can be `None`, a `str` or a number) are `PyValue`.
* The Python regexes are embedded as hand-derived deterministic matchers with
  backtracking resolved explicitly; each matcher is documented with the regex it
  embeds.  Unicode-only aspects (non-ASCII word characters, exotic whitespace,
  NFKC checks) are modelled over the ASCII fragment; every concrete input used
  in a theorem below is ASCII.
* Fallible code (urlparse raising ValueError) returns `Except String _`.
-/

set_option linter.unusedVariables false

namespace FormSpam

/-- Whitespace as matched by Python `\s` / `str.strip` (ASCII + the Latin-1
whitespace code points; further Unicode spaces are outside the modelled fragment). -/
def isPyWs (c : Char) : Bool :=
  c.toNat == 32 || decide (9 ≤ c.toNat ∧ c.toNat ≤ 13) ||
  decide (28 ≤ c.toNat ∧ c.toNat ≤ 31) || c.toNat == 133 || c.toNat == 160

def isDigitC (c : Char) : Bool := decide ('0' ≤ c ∧ c ≤ '9')

def isAlphaC (c : Char) : Bool :=
  decide ('a' ≤ c ∧ c ≤ 'z') || decide ('A' ≤ c ∧ c ≤ 'Z')

/-- Python `\w` over the ASCII fragment. -/
def isWordC (c : Char) : Bool := isAlphaC c || isDigitC c || c == '_'

/-- Python `str.lower` on one character (ASCII fragment). -/
def pyLowerChar (c : Char) : Char :=
  if decide (65 ≤ c.toNat ∧ c.toNat ≤ 90) then Char.ofNat (c.toNat + 32) else c

def pyLowerL (s : List Char) : List Char := s.map pyLowerChar

def pyLower (s : String) : String := String.mk (pyLowerL s.data)

def trimLeftWs (s : List Char) : List Char := s.dropWhile (fun c => isPyWs c)

def trimRightWs (s : List Char) : List Char := (trimLeftWs s.reverse).reverse

/-- Python `str.strip()` (default whitespace strip). -/
def pyStripL (s : List Char) : List Char := trimLeftWs (trimRightWs s)

def pyStripS (s : String) : String := String.mk (pyStripL s.data)

/-- Python `str.strip(chs)` for an explicit character set. -/
def stripBothSet (set : List Char) (s : List Char) : List Char :=
  ((s.dropWhile (fun c => set.contains c)).reverse.dropWhile
    (fun c => set.contains c)).reverse

/-- `leadsB t s` : `t` is an initial segment of `s`. -/
def leadsB : List Char → List Char → Bool
  | [], _ => true
  | _ :: _, [] => false
  | a :: t, b :: s => a == b && leadsB t s

/-- `occursB t s` : `t` occurs as a contiguous substring of `s`
(Python `t in s`). -/
def occursB (t : List Char) : List Char → Bool
  | [] => leadsB t []
  | c :: s => leadsB t (c :: s) || occursB t s

/-- Number of positions of `s` where `t` starts (all, possibly overlapping,
occurrences; used to state "number of placeholder tokens" — for the bracketed
tokens it agrees with Python non-overlapping `str.count`). -/
def countOcc (t : List Char) : List Char → Nat
  | [] => 0
  | c :: s => (if leadsB t (c :: s) then 1 else 0) + countOcc t s

/-- Python `str.count` (non-overlapping scan), fueled recursion. -/
def pyCountGo (t : List Char) : Nat → List Char → Nat
  | 0, _ => 0
  | _, [] => 0
  | fuel + 1, c :: s =>
    if leadsB t (c :: s) then 1 + pyCountGo t fuel (List.drop (t.length - 1) s)
    else pyCountGo t fuel s

/-- Python `s.count t` for a non-empty token. -/
def pyCount (s t : String) : Nat := pyCountGo t.data s.data.length s.data

/-- Python `sep.join l`. -/
def joinSep (sep : String) : List String → String
  | [] => ""
  | [a] => a
  | a :: rest => a ++ sep ++ joinSep sep rest

/-- One pass of `re.sub(r"\s+", " ", ·)`: every whitespace run becomes a single
space.  The flag records whether we are inside a run. -/
def collapseGo : Bool → List Char → List Char
  | _, [] => []
  | inRun, c :: r =>
    if isPyWs c then
      if inRun then collapseGo true r else ' ' :: collapseGo true r
    else c :: collapseGo false r

/-- `re.sub(r"\s+", " ", text).strip()` — shared by
`sanitize_raw_csv.normalize_spaces` and the `process_data` message pipeline. -/
def normalize_spaces (s : String) : String :=
  String.mk (pyStripL (collapseGo false s.data))

/-- Python `str.split()` (split on whitespace runs, dropping empties),
accumulating the current word in reverse. -/
def pySplitWsAux : List Char → List Char → List String
  | cur, [] => if cur.isEmpty then [] else [String.mk cur.reverse]
  | cur, c :: r =>
    if isPyWs c then
      if cur.isEmpty then pySplitWsAux [] r
      else String.mk cur.reverse :: pySplitWsAux [] r
    else pySplitWsAux (c :: cur) r

def pySplitWs (s : String) : List String := pySplitWsAux [] s.data

/-- Python `str.split(sep)` for a single-character separator (keeps empties). -/
def pySplitCharAux (sep : Char) : List Char → List Char → List String
  | cur, [] => [String.mk cur.reverse]
  | cur, c :: r =>
    if c == sep then String.mk cur.reverse :: pySplitCharAux sep [] r
    else pySplitCharAux sep (c :: cur) r

def pySplitChar (sep : Char) (s : String) : List String := pySplitCharAux sep [] s.data

/-- Python dynamic field value: the sources are called with `None`, strings and
numbers (cf. the repository test `test_normalize_text`). -/
inductive PyValue
  | none
  | str (s : String)
  | int (n : Int)
deriving DecidableEq

/-- Python `str(value)`. -/
def pyStr : PyValue → String
  | .none => "None"
  | .str s => s
  | .int n => toString n

/-- `text_cleaning.normalize_text` (lines 31–37). -/
def normalize_text (value : PyValue) : String :=
  match value with
  | .none => ""
  | v =>
    let text := pyStripS (pyStr v)
    if text == "" || pyLower text == "nan" || pyLower text == "none" then ""
    else text

/-- The shared leftmost non-overlapping scan of `re.sub` / `re.finditer`:
given a match function `f prev rest = some n` (consume `n ≥ 1` characters),
produce the text with every match replaced by `tok`, together with the number
of matches.  `prev` is the character of the *original* text just before the
current position (for the look-behinds `(?<!\d)`, `(?<!@)` and `\b`).
Fueled; `fuel ≥ length` makes it total. -/
def mcGo (f : Option Char → List Char → Option Nat) (tok : List Char) :
    Nat → Option Char → List Char → List Char × Nat
  | 0, _, s => (s, 0)
  | _ + 1, _, [] => ([], 0)
  | fuel + 1, prev, c :: rest =>
    match f prev (c :: rest) with
    | some n =>
      if decide (1 ≤ n) && decide (n ≤ rest.length + 1) then
        let nxt := mcGo f tok fuel (some ((c :: rest).getD (n - 1) c))
          (List.drop n (c :: rest))
        (tok ++ nxt.1, nxt.2 + 1)
      else
        let nxt := mcGo f tok fuel (some c) rest
        (c :: nxt.1, nxt.2)
    | none =>
      let nxt := mcGo f tok fuel (some c) rest
      (c :: nxt.1, nxt.2)

/-- Replace every match of `f` by `tok`, also returning the match count
(Python `regex.sub` and `len(regex.findall)` / `finditer` run this same scan). -/
def maskCount (f : Option Char → List Char → Option Nat) (tok : List Char)
    (s : List Char) : List Char × Nat :=
  mcGo f tok s.length none s

/-! ### Regex matchers

Each matcher embeds one compiled Python pattern: `matchAt prev s = some n`
means the regex matches at the current position consuming `n` characters,
`prev` being the original character just before the position.  Backtracking
priorities of the Python engine (leftmost position, first alternative, greedy
quantifiers) are resolved into explicit candidate enumeration. -/

def wordB : Option Char → Bool
  | Option.none => false
  | some c => isWordC c

def digitB : Option Char → Bool
  | Option.none => false
  | some c => isDigitC c

/-- `\b` between `prev` and the first character `c` of the rest. -/
def atBoundary (prev : Option Char) (c : Char) : Bool := isWordC c != wordB prev

/-- local-part class `[a-z0-9._%+-]` of the email regexes (case-insensitive). -/
def isEmailLocalC (c : Char) : Bool :=
  isAlphaC c || isDigitC c || c == '.' || c == '_' || c == '%' || c == '+' || c == '-'

/-- domain class `[a-z0-9.-]` (case-insensitive). -/
def isEmailDomC (c : Char) : Bool :=
  isAlphaC c || isDigitC c || c == '.' || c == '-'

/-- `true` when the list is empty or starts with a non-word character
(the trailing `\b` after a word character). -/
def nextNonWord (l : List Char) : Bool :=
  match l.head? with
  | Option.none => true
  | some c => !isWordC c

/-- `text_cleaning.EMAIL_REGEX` and `sanitize_raw_csv.EMAIL_REGEX` (identical
patterns): `(?i)\b[a-z0-9._%+-]+@[a-z0-9.-]+\.[a-z]{2,}\b`.
The local part is a maximal class run that must be followed by `@`; after `@`
the engine backtracks the greedy `[a-z0-9.-]+` from the right, so the match
ends at the right-most `.` of the domain run that is followed by ≥ 2 letters
and a word boundary, with a non-empty domain part before that dot. -/
def emailMatchAt (prev : Option Char) (s : List Char) : Option Nat :=
  match s with
  | [] => Option.none
  | c :: _ =>
    if !atBoundary prev c then Option.none else
    let loc := s.takeWhile isEmailLocalC
    if loc.isEmpty then Option.none else
    match s.drop loc.length with
    | '@' :: s2 =>
      let dom := s2.takeWhile isEmailDomC
      let ok := fun (i : Nat) =>
        dom.getD i ' ' == '.' && decide (1 ≤ i) &&
        (let tl := (dom.drop (i + 1)).takeWhile isAlphaC
         decide (2 ≤ tl.length) && nextNonWord (s2.drop (i + 1 + tl.length)))
      match (List.range dom.length).reverse.find? ok with
      | some i =>
        let tl := (dom.drop (i + 1)).takeWhile isAlphaC
        some (loc.length + 1 + i + 1 + tl.length)
      | Option.none => Option.none
    | _ => Option.none

/-- Case-insensitive literal prefix: consume `pat` (given lowercase) from `s`,
returning the rest. -/
def stripPrefCI (pat : List Char) (s : List Char) : Option (List Char) :=
  match pat, s with
  | [], rest => some rest
  | _ :: _, [] => Option.none
  | p :: ps, c :: cs => if pyLowerChar c == p then stripPrefCI ps cs else Option.none

/-- length of the maximal `\S+`-run. -/
def nonWsRun (s : List Char) : Nat := (s.takeWhile (fun c => !isPyWs c)).length

/-- Branch `(?:https?://|www\.)\S+` shared by both URL regexes: alternatives in
engine order, each requiring at least one following non-space character. -/
def urlSchemeBranch (s : List Char) : Option Nat :=
  ["https://".data, "http://".data, "www.".data].findSome? (fun pat =>
    match stripPrefCI pat s with
    | some rest =>
      let r := nonWsRun rest
      if r == 0 then Option.none else some (pat.length + r)
    | Option.none => Option.none)

/-- label class `[a-z0-9-]` (case-insensitive). -/
def isUrlLabelC (c : Char) : Bool := isAlphaC c || isDigitC c || c == '-'

/-- consumed length of the maximal `(?:\.[a-z0-9-]+)+`-run (0 if none). -/
def dotLabelsGo : Nat → List Char → Nat
  | 0, _ => 0
  | fuel + 1, '.' :: rest =>
    let lab := rest.takeWhile isUrlLabelC
    if lab.isEmpty then 0
    else (1 + lab.length) + dotLabelsGo fuel (rest.drop lab.length)
  | _ + 1, _ => 0

/-- `text_cleaning.URL_REGEX`:
`(?i)\b((?:https?://|www\.)\S+|(?<!@)[a-z0-9-]+(?:\.[a-z0-9-]+)+(?:/[^\s]*)?)`. -/
def urlTcMatchAt (prev : Option Char) (s : List Char) : Option Nat :=
  match s with
  | [] => Option.none
  | c :: _ =>
    if !atBoundary prev c then Option.none else
    match urlSchemeBranch s with
    | some n => some n
    | Option.none =>
      if prev == some '@' then Option.none else
      let lab0 := s.takeWhile isUrlLabelC
      if lab0.isEmpty then Option.none else
      let dl := dotLabelsGo s.length (s.drop lab0.length)
      if dl == 0 then Option.none else
      let core := lab0.length + dl
      match s.drop core with
      | '/' :: rest2 => some (core + 1 + nonWsRun rest2)
      | _ => some core

/-- separator class `[\s-]` of the text_cleaning phone regex. -/
def isSepC (c : Char) : Bool := isPyWs c || c == '-'

/-- consume exactly `r` repetitions of `(?:[\s-]?\d)`, returning the consumed
length.  Each repetition is deterministic: a leading separator is consumed only
when a digit follows it. -/
def repsGo : Nat → List Char → Option Nat
  | 0, _ => some 0
  | r + 1, c :: rest =>
    if isDigitC c then (repsGo r rest).map (· + 1)
    else if isSepC c then
      match rest with
      | d :: rest2 => if isDigitC d then (repsGo r rest2).map (· + 2) else Option.none
      | [] => Option.none
    else Option.none
  | _ + 1, [] => Option.none

/-- `\d(?:[\s-]?\d){7,11}(?!\d)` : greedy repetition count from 11 down to 7,
with the trailing negative look-ahead checked after the consumed body. -/
def phoneBody (s : List Char) : Option Nat :=
  match s with
  | c :: rest =>
    if !isDigitC c then Option.none else
    [11, 10, 9, 8, 7].findSome? (fun r =>
      match repsGo r rest with
      | some k => if digitB (rest.drop k).head? then Option.none else some (1 + k)
      | Option.none => Option.none)
  | [] => Option.none

/-- `text_cleaning.PHONE_REGEX`:
`(?<!\d)(?:\+?\d{1,3}[\s-]?)?\d(?:[\s-]?\d){7,11}(?!\d)`.
The optional prefix group is enumerated in engine priority order
(`+` consumed first when present; `\d{1,3}` greedy; `[\s-]?` greedy),
falling back to no prefix at all. -/
def phoneTcMatchAt (prev : Option Char) (s : List Char) : Option Nat :=
  if digitB prev then Option.none else
  let plOpts : List Nat := if s.head? == some '+' then [1, 0] else [0]
  let prefCands : List Nat := plOpts.flatMap (fun pl =>
    let dRun := ((s.drop pl).takeWhile isDigitC).length
    ([3, 2, 1].filter (fun k => decide (k ≤ dRun))).flatMap (fun k =>
      let base := pl + k
      match (s.drop base).head? with
      | some c => if isSepC c then [base + 1, base] else [base]
      | Option.none => [base]))
  (prefCands ++ [0]).findSome? (fun pre =>
    (phoneBody (s.drop pre)).map (pre + ·))

/-- `sanitize_raw_csv.PHONE_REGEX`: `(?<!\d)(?:\+?\d[\d\s().-]{7,}\d)(?!\d)`.
The greedy unbounded `{7,}` backtracks from the full class run; the
consumed shape is an optional `+`, a digit, `j ≥ 7` class characters and a
final digit not followed by another digit. -/
def isPhoneSanC (c : Char) : Bool :=
  isDigitC c || isPyWs c || c == '(' || c == ')' || c == '.' || c == '-'

def phoneSanMatchAt (prev : Option Char) (s : List Char) : Option Nat :=
  if digitB prev then Option.none else
  let pl : Nat := if s.head? == some '+' then 1 else 0
  match s.drop pl with
  | c :: rest =>
    if !isDigitC c then Option.none else
    let run := rest.takeWhile isPhoneSanC
    match (List.range run.length).reverse.find? (fun j =>
        decide (7 ≤ j) && isDigitC (run.getD j ' ') &&
        !digitB (rest.drop (j + 1)).head?) with
    | some j => some (pl + 1 + j + 1)
    | Option.none => Option.none
  | [] => Option.none

/-- `sanitize_raw_csv.URL_REGEX`:
`(?i)\b((?:https?://|www\.)\S+|\b[a-z0-9-]+\.(?:com|es|net|org|io|co|info|biz)\b\S*)`. -/
def sanTlds : List (List Char) :=
  ["com".data, "es".data, "net".data, "org".data, "io".data, "co".data,
   "info".data, "biz".data]

def urlSanMatchAt (prev : Option Char) (s : List Char) : Option Nat :=
  match s with
  | [] => Option.none
  | c :: _ =>
    if !atBoundary prev c then Option.none else
    match urlSchemeBranch s with
    | some n => some n
    | Option.none =>
      let lab0 := s.takeWhile isUrlLabelC
      if lab0.isEmpty then Option.none else
      match s.drop lab0.length with
      | '.' :: rest =>
        match sanTlds.findSome? (fun t =>
            match stripPrefCI t rest with
            | some after => if nextNonWord after then some t.length else Option.none
            | Option.none => Option.none) with
        | some tlen =>
          some (lab0.length + 1 + tlen + nonWsRun (s.drop (lab0.length + 1 + tlen)))
        | Option.none => Option.none
      | _ => Option.none

/-! ### text_cleaning.py functions -/

def tokEMAIL : List Char := "[EMAIL]".data
def tokURL : List Char := "[URL]".data
def tokPHONE : List Char := "[PHONE]".data

/-- `text_cleaning.mask_phones_in_message` (lines 85–94). -/
def mask_phones_in_message (message : PyValue) : String :=
  String.mk (maskCount phoneTcMatchAt tokPHONE (normalize_text message).data).1

/-- `text_cleaning.phone_count` (lines 97–109): the same scan counting matches
(`finditer` and `sub` run identical leftmost non-overlapping scans; the
`if not text: return 0` guard is the scan on the empty list). -/
def phone_count (message : PyValue) : Nat :=
  (maskCount phoneTcMatchAt tokPHONE (normalize_text message).data).2

/-- `text_cleaning.mask_urls_in_message` (lines 112–121). -/
def mask_urls_in_message (message : PyValue) : String :=
  String.mk (maskCount urlTcMatchAt tokURL (normalize_text message).data).1

/-- `text_cleaning.url_count` (lines 124–135). -/
def url_count (message : PyValue) : Nat :=
  (maskCount urlTcMatchAt tokURL (normalize_text message).data).2

/-- `text_cleaning.mask_emails_in_message` (lines 168–177). -/
def mask_emails_in_message (message : PyValue) : String :=
  String.mk (maskCount emailMatchAt tokEMAIL (normalize_text message).data).1

/-- `text_cleaning.email_count` (lines 180–192). -/
def email_count (message : PyValue) : Nat :=
  (maskCount emailMatchAt tokEMAIL (normalize_text message).data).2

/-- `text_cleaning.email_to_domain` (lines 61–82).
`email.split("@")[-1]` is the last piece of the `'@'`-split; the strip set of
`domain.strip(" >),;\"'")` is written with `Char.ofNat 39` for the single
quote. -/
def emailStripSet : List Char := [' ', '>', ')', ',', ';', '"', Char.ofNat 39]

def email_to_domain (email : PyValue) : String :=
  let e := normalize_text email
  if !occursB ['@'] e.data then ""
  else
    let domain0 := (pySplitChar '@' e).getLastD ""
    let domain1 := pyStripL domain0.data
    let domain := String.mk (stripBothSet emailStripSet domain1)
    if occursB [' '] domain.data || !occursB ['.'] domain.data then ""
    else domain

/-- The `process_data.py` `message_clean` pipeline (lines 59–67):
email mask, then URL mask, then phone mask, then
`re.sub(r"\s+", " ", x).strip()`. -/
def message_clean (message : PyValue) : String :=
  let a := mask_emails_in_message message
  let b := mask_urls_in_message (.str a)
  let c := mask_phones_in_message (.str b)
  normalize_spaces c

/-! ### sanitize_raw_csv.py -/

/-- `sanitize_raw_csv.extract_email_domain` (lines 65–75): lowercases, takes
the part after the last `@`, and removes (everywhere) characters outside
`[\w.-]`; note it has no dot/whitespace validity check. -/
def extract_email_domain (email : PyValue) : String :=
  match email with
  | .str s =>
    let e := pyLower (pyStripS s)
    if !occursB ['@'] e.data then ""
    else
      let domain := (pySplitChar '@' e).getLastD ""
      String.mk (domain.data.filter (fun c => isWordC c || c == '.' || c == '-'))
  | _ => ""

/-- `sanitize_raw_csv.sanitize_text` (lines 78–95): emails → `[EMAIL]`,
URLs → `[URL]`, phones → `[PHONE]`, then `.lower()`, then space
normalization; non-strings map to `""`. -/
def sanitize_text (text : PyValue) : String :=
  match text with
  | .str s =>
    let t1 := (maskCount emailMatchAt tokEMAIL s.data).1
    let t2 := (maskCount urlSanMatchAt tokURL t1).1
    let t3 := (maskCount phoneSanMatchAt tokPHONE t2).1
    normalize_spaces (String.mk (pyLowerL t3))
  | _ => ""

/-- `sanitize_raw_csv.SPAM_KEYWORDS` (lines 45–48). -/
def SPAM_KEYWORDS : List String :=
  ["crypto", "investment", "forex", "bitcoin", "loan", "casino", "betting",
   "escort", "adult", "viagra", "pharmacy", "click here", "earn money"]

/-- `sanitize_raw_csv.AD_KEYWORDS` (lines 49–54), duplicates preserved. -/
def AD_KEYWORDS : List String :=
  ["seo", "backlink", "backlinks", "guest post", "guestposting", "link building",
   "marketing", "rank your website", "google ranking", "traffic", "outreach",
   "press release", "advertising", "ads", "agency",
   "posicionamiento", "seo", "linkbuilding", "marketing", "agencia",
   "presupuesto seo"]

/-- `sanitize_raw_csv.BOT_SPEED_MS_THRESHOLD` (line 57) — declared, never used. -/
def BOT_SPEED_MS_THRESHOLD : Nat := 1500

/-- `sanitize_raw_csv.contains_any` (lines 127–132): `kw in text` is substring
containment. -/
def contains_any (text : String) (keywords : List String) : List String :=
  keywords.filter (fun kw => occursB kw.data text.data)

/-- first `\d+` run of a string (for `re.search(r"\d+", ...)`). -/
def firstDigitRun : List Char → Option (List Char)
  | [] => Option.none
  | c :: r => if isDigitC c then some (c :: r.takeWhile isDigitC) else firstDigitRun r

def natFromDigits (l : List Char) : Nat :=
  l.foldl (fun acc c => acc * 10 + (c.toNat - 48)) 0

/-- Python `float(s)` on a stripped string, then `int(·)` (truncation toward
zero), as an exact rational; returns `Option.none` on parse failure
(including `inf` / `nan`, whose later `int()` raises and is caught in the
source).  IEEE-754 rounding and overflow are not modelled — the scorer never
uses the value (claim C10). -/
def pyFloatToInt (s : List Char) : Option Int :=
  let (sign, s1) : Int × List Char :=
    match s with
    | '+' :: r => (1, r)
    | '-' :: r => (-1, r)
    | r => (1, r)
  -- digit sequences may contain underscores strictly between digits
  let grabDigits : List Char → Option (Nat × Nat × List Char) := fun l =>
    -- returns (value, number of digits, rest); fueled scan
    let rec go : Nat → Nat → Nat → List Char → Option (Nat × Nat × List Char)
      | _, v, k, [] => if k == 0 then Option.none else some (v, k, [])
      | 0, _, _, _ => Option.none
      | fuel + 1, v, k, c :: r =>
        if isDigitC c then go fuel (v * 10 + (c.toNat - 48)) (k + 1) r
        else if c == '_' then
          match r with
          | d :: r2 =>
            if isDigitC d && decide (1 ≤ k) then
              go fuel (v * 10 + (d.toNat - 48)) (k + 1) r2
            else Option.none
          | [] => Option.none
        else if k == 0 then Option.none else some (v, k, c :: r)
    go (l.length + 1) 0 0 l
  let intFrac : Option (ℚ × List Char) :=
    match grabDigits s1 with
    | some (v, _, rest) =>
      match rest with
      | '.' :: r2 =>
        match grabDigits r2 with
        | some (f, k, rest2) => some ((v : ℚ) + (f : ℚ) / ((10 : ℚ) ^ k), rest2)
        | Option.none => some ((v : ℚ), r2)   -- "1."
      | _ => some ((v : ℚ), rest)
    | Option.none =>
      match s1 with
      | '.' :: r2 =>
        match grabDigits r2 with
        | some (f, k, rest2) => some ((f : ℚ) / ((10 : ℚ) ^ k), rest2)
        | Option.none => Option.none
      | _ => Option.none
  match intFrac with
  | Option.none => Option.none
  | some (m, rest) =>
    let expPart : Option ℚ :=
      match rest with
      | [] => some 1
      | e :: r2 =>
        if e == 'e' || e == 'E' then
          let (esign, r3) : Int × List Char :=
            match r2 with
            | '+' :: r4 => (1, r4)
            | '-' :: r4 => (-1, r4)
            | r4 => (1, r4)
          match grabDigits r3 with
          | some (ev, _, []) =>
            if esign == 1 then some ((10 : ℚ) ^ ev) else some (1 / (10 : ℚ) ^ ev)
          | _ => Option.none
        else Option.none
    match expPart with
    | Option.none => Option.none
    | some scale =>
      let q : ℚ := (sign : ℚ) * m * scale
      -- int() truncates toward zero
      some (if 0 ≤ q then Int.floor q else Int.ceil q)

/-- The submission-speed parse inside `heuristic_label`
(sanitize_raw_csv lines 176–188): strip, try `int(float(s.replace(",", "")))`,
on any failure fall back to the first digit run; total — never raises. -/
def parse_submission_speed (speed_ms : String) : Option Int :=
  let speed_str := pyStripS speed_ms
  if speed_str == "" then Option.none
  else
    match pyFloatToInt (speed_str.data.filter (fun c => c != ',')) with
    | some v => some v
    | Option.none =>
      match firstDigitRun speed_str.data with
      | some ds => some (natFromDigits ds)
      | Option.none => Option.none

/-- The row dictionary built in `sanitize_raw_csv.main` and consumed by
`heuristic_label` (lines 135–149): all fields are strings. -/
structure Row where
  text : String
  message_raw : String
  message_sanitized : String
  user_agent : String
  submission_speed_ms : String

/-- `len(URL_REGEX.findall(message_raw))` (line 152). -/
def url_count_raw (message_raw : String) : Nat :=
  (maskCount urlSanMatchAt tokURL message_raw.data).2

/-- `message_sanitized.count("[URL]")` (line 155). -/
def url_count_token (message_sanitized : String) : Nat :=
  pyCount message_sanitized "[URL]"

def UA_TOKENS : List String := ["python", "curl", "wget", "bot", "spider", "scrapy"]

/-- Python `min(a, b)` on two rationals (`b` when `b < a`, else `a`), via the
executable comparison `Rat.blt` so that concrete rows evaluate by `decide`;
it agrees with `min`. -/
def pyMinQ (a b : ℚ) : ℚ := if Rat.blt b a then b else a

/-- `sanitize_raw_csv.heuristic_label` (lines 135–219).  Scores are modelled
as exact rationals (the float constants 0.50/0.20/0.45/0.30 and their sums up
to the 1.0 cap; IEEE representation of the constants is irrelevant to every
claim below).  Returns `(auto_label, auto_score, auto_reasons)`. -/
def heuristic_label (row : Row) : String × ℚ × String :=
  let text := row.text
  let message_raw := row.message_raw
  let message_sanitized := row.message_sanitized
  let user_agent := row.user_agent
  let speed_ms := row.submission_speed_ms
  -- URL signal
  let uc := max (url_count_raw message_raw) (url_count_token message_sanitized)
  let (score1, reasons1) : ℚ × List String :=
    if 2 ≤ uc then (0.50, ["many_urls(" ++ toString uc ++ ")"])
    else if uc == 1 then (0.20, ["one_url"])
    else (0, [])
  -- keyword signals
  let spam_hits := contains_any text SPAM_KEYWORDS
  let (score2, reasons2) : ℚ × List String :=
    if !spam_hits.isEmpty then
      (score1 + 0.50,
       reasons1 ++ ["spam_keywords(" ++ joinSep "," (spam_hits.take 5) ++ ")"])
    else (score1, reasons1)
  let ad_hits := contains_any text AD_KEYWORDS
  let (score3, reasons3) : ℚ × List String :=
    if !ad_hits.isEmpty then
      (score2 + 0.45,
       reasons2 ++ ["ad_keywords(" ++ joinSep "," (ad_hits.take 5) ++ ")"])
    else (score2, reasons2)
  -- submission speed: parsed but never used (silently yields no value)
  let speed_val := parse_submission_speed speed_ms
  -- user agent
  let ua_lower := pyLower user_agent
  let (score4, reasons4) : ℚ × List String :=
    if ua_lower != "" && UA_TOKENS.any (fun t => occursB t.data ua_lower.data) then
      (score3 + 0.30, reasons3 ++ ["suspicious_user_agent"])
    else (score3, reasons3)
  -- label decision
  let has_spam_signal :=
    reasons4.any (fun r => leadsB "spam_keywords".data r.data) ||
    reasons4.any (fun r => leadsB "many_urls".data r.data)
  let has_ad_signal := reasons4.any (fun r => leadsB "ad_keywords".data r.data)
  let (auto_label, reasons5) : String × List String :=
    if has_spam_signal && has_ad_signal then ("spam", reasons4 ++ ["tie_breaker=spam"])
    else if has_spam_signal then ("spam", reasons4)
    else if has_ad_signal then ("publicidad", reasons4)
    else ("unknown", reasons4)
  (auto_label, pyMinQ score4 1.0, joinSep ";" reasons5)

/-! ### SHA-256 (for `hashlib.sha256(...).hexdigest()`), on 32-bit words as
`Nat` values below `2^32`. -/

namespace Sha256

def M32 : Nat := 4294967296

def a32 (x y : Nat) : Nat := (x + y) % M32

/-- rotate a 32-bit word right by `n` (0 < n < 32), arithmetically. -/
def rotr (n x : Nat) : Nat := x / 2 ^ n + x % 2 ^ n * 2 ^ (32 - n)

def shr (n x : Nat) : Nat := x / 2 ^ n

def bnot32 (x : Nat) : Nat := 4294967295 - x

def bigS0 (x : Nat) : Nat := Nat.xor (rotr 2 x) (Nat.xor (rotr 13 x) (rotr 22 x))
def bigS1 (x : Nat) : Nat := Nat.xor (rotr 6 x) (Nat.xor (rotr 11 x) (rotr 25 x))
def smlS0 (x : Nat) : Nat := Nat.xor (rotr 7 x) (Nat.xor (rotr 18 x) (shr 3 x))
def smlS1 (x : Nat) : Nat := Nat.xor (rotr 17 x) (Nat.xor (rotr 19 x) (shr 10 x))

def chF (e f g : Nat) : Nat := Nat.xor (Nat.land e f) (Nat.land (bnot32 e) g)
def majF (a b c : Nat) : Nat :=
  Nat.xor (Nat.land a b) (Nat.xor (Nat.land a c) (Nat.land b c))

def K : List Nat :=
  [1116352408, 1899447441, 3049323471, 3921009573, 961987163, 1508970993,
   2453635748, 2870763221, 3624381080, 310598401, 607225278, 1426881987,
   1925078388, 2162078206, 2614888103, 3248222580, 3835390401, 4022224774,
   264347078, 604807628, 770255983, 1249150122, 1555081692, 1996064986,
   2554220882, 2821834349, 2952996808, 3210313671, 3336571891, 3584528711,
   113926993, 338241895, 666307205, 773529912, 1294757372, 1396182291,
   1695183700, 1986661051, 2177026350, 2456956037, 2730485921, 2820302411,
   3259730800, 3345764771, 3516065817, 3600352804, 4094571909, 275423344,
   430227734, 506948616, 659060556, 883997877, 958139571, 1322822218,
   1537002063, 1747873779, 1955562222, 2024104815, 2227730452, 2361852424,
   2428436474, 2756734187, 3204031479, 3329325298]

structure St where
  a : Nat
  b : Nat
  c : Nat
  d : Nat
  e : Nat
  f : Nat
  g : Nat
  h : Nat

def H0 : St :=
  ⟨1779033703, 3144134277, 1013904242, 2773480762,
   1359893119, 2600822924, 528734635, 1541459225⟩

/-- extend the 16 message words to 64; the list is kept most-recent-first. -/
def extendW : Nat → List Nat → List Nat
  | 0, w => w
  | k + 1, w =>
    extendW k
      (a32 (a32 (smlS1 (w.getD 1 0)) (w.getD 6 0))
           (a32 (smlS0 (w.getD 14 0)) (w.getD 15 0)) :: w)

def round1 (st : St) (kw : Nat × Nat) : St :=
  let t1 := a32 st.h (a32 (bigS1 st.e) (a32 (chF st.e st.f st.g) (a32 kw.1 kw.2)))
  let t2 := a32 (bigS0 st.a) (majF st.a st.b st.c)
  ⟨a32 t1 t2, st.a, st.b, st.c, a32 st.d t1, st.e, st.f, st.g⟩

def addSt (x y : St) : St :=
  ⟨a32 x.a y.a, a32 x.b y.b, a32 x.c y.c, a32 x.d y.d,
   a32 x.e y.e, a32 x.f y.f, a32 x.g y.g, a32 x.h y.h⟩

/-- 4 big-endian bytes to one word. -/
def word4 : List Nat → Nat
  | b0 :: b1 :: b2 :: b3 :: _ => ((b0 * 256 + b1) * 256 + b2) * 256 + b3
  | l => l.foldl (fun acc b => acc * 256 + b) 0

/-- split the padded byte list into 16-word blocks (length is a multiple of 64). -/
def toBlocks : Nat → List Nat → List (List Nat)
  | 0, _ => []
  | _ + 1, [] => []
  | fuel + 1, bytes =>
    let blk := bytes.take 64
    let words := (List.range 16).map (fun i => word4 (blk.drop (4 * i)))
    words :: toBlocks fuel (bytes.drop 64)

def compress (st : St) (block : List Nat) : St :=
  let w := (extendW 48 block.reverse).reverse
  addSt st ((K.zip w).foldl round1 st)

def pad (msg : List Nat) : List Nat :=
  let len := msg.length
  let k := (119 - len % 64) % 64
  let lenBits := len * 8
  msg ++ [128] ++ List.replicate k 0 ++
    [lenBits / 2 ^ 56 % 256, lenBits / 2 ^ 48 % 256, lenBits / 2 ^ 40 % 256,
     lenBits / 2 ^ 32 % 256, lenBits / 2 ^ 24 % 256, lenBits / 2 ^ 16 % 256,
     lenBits / 2 ^ 8 % 256, lenBits % 256]

def digestSt (msg : List Nat) : St :=
  let p := pad msg
  (toBlocks (p.length + 1) p).foldl compress H0

def hexCs : List Char := "0123456789abcdef".data

def nibbleChar (n : Nat) : Char := hexCs.getD (n % 16) '0'

/-- 8 lowercase hex characters of one 32-bit word. -/
def hexWord (x : Nat) : List Char :=
  [nibbleChar (x / 2 ^ 28), nibbleChar (x / 2 ^ 24), nibbleChar (x / 2 ^ 20),
   nibbleChar (x / 2 ^ 16), nibbleChar (x / 2 ^ 12), nibbleChar (x / 2 ^ 8),
   nibbleChar (x / 2 ^ 4), nibbleChar x]

/-- `hashlib.sha256(bytes).hexdigest()` as a character list (64 hex chars). -/
def hexdigest (msg : List Nat) : List Char :=
  let st := digestSt msg
  hexWord st.a ++ hexWord st.b ++ hexWord st.c ++ hexWord st.d ++
  hexWord st.e ++ hexWord st.f ++ hexWord st.g ++ hexWord st.h

end Sha256

/-- UTF-8 encoding of one character (`str.encode("utf-8")`). -/
def utf8Char (c : Char) : List Nat :=
  let n := c.toNat
  if n < 128 then [n]
  else if n < 2048 then [192 + n / 64, 128 + n % 64]
  else if n < 65536 then [224 + n / 4096, 128 + n / 64 % 64, 128 + n % 64]
  else [240 + n / 262144, 128 + n / 4096 % 64, 128 + n / 64 % 64, 128 + n % 64]

def utf8Bytes (s : String) : List Nat :=
  s.data.foldr (fun c acc => utf8Char c ++ acc) []

/-- `text_cleaning.anonymize_name` (lines 40–58): normalize; empty → `""`;
else lowercase, collapse whitespace via `" ".join(name.lower().split())`,
hash `f"{salt}:{normalized}"` with SHA-256 and keep the first 8 hex chars. -/
def anonymize_name (name : PyValue) (salt : String := "gf_v1") : String :=
  let n := normalize_text name
  if n == "" then ""
  else
    let normalized := joinSep " " (pySplitWs (pyLower n))
    let raw := utf8Bytes (salt ++ ":" ++ normalized)
    "NAME_" ++ String.mk ((Sha256.hexdigest raw).take 8)

/-! ### `urllib.parse` model (CPython 3.11 `urlsplit`/`urlparse`/`urlunparse`)

`urlsplit` can raise `ValueError` (unbalanced `[`/`]` in the authority, or an
invalid bracketed host); this is modelled with `Except String`.  The
non-ASCII NFKC `_checknetloc` check is outside the modelled (ASCII) fragment
and is a no-op here. -/

namespace UrlParse

def scheme_chars : List Char :=
  "abcdefghijklmnopqrstuvwxyzABCDEFGHIJKLMNOPQRSTUVWXYZ0123456789+-.".data

def uses_params : List String :=
  ["", "ftp", "hdl", "prospero", "http", "imap", "https", "shttp", "rtsp",
   "rtsps", "rtspu", "sip", "sips", "mms", "sftp", "tel"]

def uses_netloc : List String :=
  ["", "ftp", "http", "gopher", "nntp", "telnet", "imap", "wais", "file",
   "mms", "https", "shttp", "snews", "prospero", "rtsp", "rtsps", "rtspu",
   "rsync", "svn", "svn+ssh", "sftp", "nfs", "git", "git+ssh", "ws", "wss"]

def firstIdx (c : Char) : List Char → Option Nat
  | [] => Option.none
  | a :: r => if a == c then some 0 else (firstIdx c r).map (· + 1)

def lastIdx (c : Char) (s : List Char) : Option Nat :=
  (firstIdx c s.reverse).map (fun i => s.length - 1 - i)

structure SplitResult where
  scheme : String
  netloc : String
  path : String
  query : String
  fragment : String
deriving DecidableEq

structure ParseResult where
  scheme : String
  netloc : String
  path : String
  params : String
  query : String
  fragment : String
deriving DecidableEq

/-- `ipaddress.IPv4Address` textual validity (dotted quad, 0–255, no leading
zeros). -/
def ipv4Octet (p : List Char) : Bool :=
  !p.isEmpty && decide (p.length ≤ 3) && p.all isDigitC &&
  (p.head? != some '0' || p.length == 1) &&
  decide (natFromDigits p ≤ 255)

def ipv4Valid (s : List Char) : Bool :=
  let parts := pySplitCharAux '.' [] s
  parts.length == 4 && parts.all (fun p => ipv4Octet p.data)

def isHexC (c : Char) : Bool :=
  isDigitC c || decide ('a' ≤ c ∧ c ≤ 'f') || decide ('A' ≤ c ∧ c ≤ 'F')

def hextetOk (p : List Char) : Bool :=
  decide (1 ≤ p.length) && decide (p.length ≤ 4) && p.all isHexC

/-- `ipaddress.IPv6Address` textual validity (with optional non-empty zone id;
an embedded trailing IPv4 counts as two hextets). -/
def ipv6Valid (s : List Char) : Bool :=
  let (addr, zoneOk) : List Char × Bool :=
    match firstIdx '%' s with
    | some i =>
      let zone := s.drop (i + 1)
      (s.take i, !zone.isEmpty && !zone.contains '%')
    | Option.none => (s, true)
  if !zoneOk then false
  else
    let parts := pySplitCharAux ':' [] addr
    if decide (parts.length < 3) then false
    else
      -- does the last part embed an IPv4 address?
      let last := (parts.getLastD "").data
      let hasV4 := last.contains '.'
      if hasV4 && !ipv4Valid last then false
      else
        let groups := if hasV4 then parts.dropLast.map String.data else parts.map String.data
        let v4Hextets := if hasV4 then 2 else 0
        -- locate '::' = an empty inner group
        let emptyCount := (groups.drop 1).dropLast.filter List.isEmpty |>.length
        if decide (2 ≤ emptyCount) then false
        else if emptyCount == 1 then
          -- with '::' : outer empties are allowed only adjacent to the gap
          let cleaned := groups.filter (fun g => !g.isEmpty)
          let headOk := !(groups.head?.getD []).isEmpty ||
            ((groups.drop 1).head?.getD [' ']).isEmpty
          let lastOk := !(groups.getLastD []).isEmpty ||
            (groups.dropLast.getLastD [' ']).isEmpty
          headOk && lastOk && cleaned.all hextetOk &&
            decide (cleaned.length + v4Hextets < 8 + 1)
        else
          -- no inner '::' ; outer empties only from leading/trailing '::'
          match groups with
          | [] => false
          | g0 :: _ =>
            let gl := groups.getLastD [' ']
            if g0.isEmpty then
              -- must be a leading '::'
              ((groups.drop 1).head?.getD [' ']).isEmpty &&
              (groups.drop 2).all hextetOk &&
              decide (groups.length - 2 + v4Hextets < 8 + 1) &&
              !((groups.drop 2).any List.isEmpty)
            else if gl.isEmpty then
              (groups.dropLast.getLastD [' ']).isEmpty &&
              groups.dropLast.dropLast.all hextetOk &&
              decide (groups.length - 2 + v4Hextets < 8 + 1) &&
              !(groups.dropLast.dropLast.any List.isEmpty)
            else
              groups.all hextetOk && (groups.length + v4Hextets) == 8

/-- `urllib.parse._check_bracketed_host`: `v…` IPvFuture, else an IP address
that must not be IPv4. -/
def bracketedHostOk (host : List Char) : Bool :=
  match host with
  | 'v' :: rest =>
    let hex := rest.takeWhile isHexC
    !hex.isEmpty && (rest.drop hex.length).head? == some '.' &&
      !(rest.drop (hex.length + 1)).isEmpty
  | _ => !ipv4Valid host && ipv6Valid host

/-- WHATWG C0-control/space lstrip and tab/CR/LF removal at the top of
`urlsplit`. -/
def preprocessUrl (url : String) : List Char :=
  (url.data.dropWhile (fun c => decide (c.toNat ≤ 32))).filter
    (fun c => !(c == '\t' || c == '\r' || c == '\n'))

/-- scheme split of `urlsplit` (first char must be an ASCII letter, all
pre-colon characters in `scheme_chars`); returns (scheme, rest). -/
def splitSchemeP (u0 : List Char) : String × List Char :=
  match firstIdx ':' u0 with
  | some i =>
    if decide (1 ≤ i) &&
       (match u0.head? with
        | some c0 => isAlphaC c0
        | Option.none => false) &&
       (u0.take i).all (fun c => scheme_chars.contains c) then
      (String.mk (pyLowerL (u0.take i)), u0.drop (i + 1))
    else ("", u0)
  | Option.none => ("", u0)

/-- netloc split of `urlsplit` (`_splitnetloc` guarded by the leading `//`);
returns (netloc, rest). -/
def splitNetlocP (u1 : List Char) : List Char × List Char :=
  if leadsB "//".data u1 then
    let rest := u1.drop 2
    let nl := rest.takeWhile (fun c => !(c == '/' || c == '?' || c == '#'))
    (nl, rest.drop nl.length)
  else ([], u1)

/-- `urllib.parse.urlsplit` (CPython 3.11): WHATWG strip/unsafe-byte removal,
scheme split, `//`-netloc up to `/?#`, bracket validation, then fragment and
query splits. -/
def urlsplit (url : String) : Except String SplitResult :=
  let u0 := preprocessUrl url
  let su := splitSchemeP u0
  let nu := splitNetlocP su.2
  let netloc := nu.1
  let u2 := nu.2
  if (netloc.contains '[' && !netloc.contains ']') ||
     (netloc.contains ']' && !netloc.contains '[') then
    .error "Invalid IPv6 URL"
  else if netloc.contains '[' &&
          !bracketedHostOk ((netloc.dropWhile (· != '[')).drop 1
            |>.takeWhile (· != ']')) then
    .error "invalid bracketed host"
  else
    let fr : List Char × List Char :=
      match firstIdx '#' u2 with
      | some i => (u2.take i, u2.drop (i + 1))
      | Option.none => (u2, [])
    let pq : List Char × List Char :=
      match firstIdx '?' fr.1 with
      | some i => (fr.1.take i, fr.1.drop (i + 1))
      | Option.none => (fr.1, [])
    .ok ⟨su.1, String.mk netloc, String.mk pq.1, String.mk pq.2,
         String.mk fr.2⟩

/-- `urllib.parse._splitparams`. -/
def splitParamsP (url : String) : String × String :=
  let u := url.data
  if u.contains '/' then
    let j := (lastIdx '/' u).getD 0
    match firstIdx ';' (u.drop j) with
    | some k => (String.mk (u.take (j + k)), String.mk (u.drop (j + k + 1)))
    | Option.none => (url, "")
  else
    match firstIdx ';' u with
    | some i => (String.mk (u.take i), String.mk (u.drop (i + 1)))
    | Option.none => (url, "")

/-- `urllib.parse.urlparse` (CPython 3.11). -/
def urlparse (url : String) : Except String ParseResult :=
  match urlsplit url with
  | .error e => .error e
  | .ok sp =>
    let pp : String × String :=
      if uses_params.contains sp.scheme && occursB [';'] sp.path.data then
        splitParamsP sp.path
      else (sp.path, "")
    .ok ⟨sp.scheme, sp.netloc, pp.1, pp.2, sp.query, sp.fragment⟩

/-- `urllib.parse.urlunsplit` (CPython 3.11). -/
def urlunsplit (scheme netloc url query fragment : String) : String :=
  let url1 :=
    if netloc != "" ||
       (scheme != "" && uses_netloc.contains scheme && !leadsB "//".data url.data) then
      let u2 := if url != "" && !leadsB "/".data url.data then "/" ++ url else url
      "//" ++ netloc ++ u2
    else url
  let url2 := if scheme != "" then scheme ++ ":" ++ url1 else url1
  let url3 := if query != "" then url2 ++ "?" ++ query else url2
  if fragment != "" then url3 ++ "#" ++ fragment else url3

/-- `urllib.parse.urlunparse` (CPython 3.11). -/
def urlunparse (pr : ParseResult) : String :=
  urlunsplit pr.scheme pr.netloc
    (if pr.params != "" then pr.path ++ ";" ++ pr.params else pr.path)
    pr.query pr.fragment

end UrlParse

/-- `text_cleaning.anonymize_origin_url` (lines 138–165): parse, and either
fall back to the bare placeholder (no authority) or rebuild the URL with the
authority replaced by `[DOMAIN]`.  A `ValueError` raised by `urlparse`
propagates (the source does not catch it). -/
def anonymize_origin_url (url : PyValue) : Except String String :=
  let text := normalize_text url
  match UrlParse.urlparse text with
  | .error e => .error e
  | .ok parsed =>
    if parsed.netloc == "" then .ok "[DOMAIN]"
    else .ok (UrlParse.urlunparse { parsed with netloc := "[DOMAIN]" })

/-! ### Basic lemmas about the string toolkit -/

theorem leadsB_append_self : ∀ t r : List Char, leadsB t (t ++ r) = true
  | [], _ => rfl
  | a :: t, r => by simp [leadsB, leadsB_append_self t r]

theorem occursB_cons (t : List Char) (c : Char) (s : List Char) :
    occursB t (c :: s) = (leadsB t (c :: s) || occursB t s) := rfl

theorem countOcc_eq_zero (t : List Char) :
    ∀ s, occursB t s = false → countOcc t s = 0
  | [], _ => rfl
  | c :: s, h => by
    rw [occursB_cons, Bool.or_eq_false_iff] at h
    simp [countOcc, h.1, countOcc_eq_zero t s h.2]

theorem occursB_of_drop (t : List Char) :
    ∀ (n : Nat) (s : List Char), occursB t (List.drop n s) = true → occursB t s = true
  | 0, s, h => by simpa using h
  | _ + 1, [], h => by simpa using h
  | n + 1, c :: s, h => by
    rw [List.drop_succ_cons] at h
    rw [occursB_cons, Bool.or_eq_true]
    exact Or.inr (occursB_of_drop t n s h)

theorem countOcc_append_no_head (v : List Char) :
    ∀ w O : List Char, (∀ a ∈ w, a ≠ '[') →
      countOcc ('[' :: v) (w ++ O) = countOcc ('[' :: v) O
  | [], O, _ => rfl
  | a :: w, O, hw => by
    have ha : (('[' : Char) == a) = false :=
      beq_eq_false_iff_ne.mpr (fun hEq => hw a (List.mem_cons_self a w) hEq.symm)
    have step : countOcc ('[' :: v) ((a :: w) ++ O) =
        (if (('[' == a) && leadsB v (w ++ O)) then 1 else 0) +
          countOcc ('[' :: v) (w ++ O) := rfl
    rw [step, ha, Bool.false_and, if_neg (by simp),
      countOcc_append_no_head v w O (fun x hx => hw x (List.mem_cons_of_mem a hx))]
    exact Nat.zero_add _

theorem countOcc_tok_append (v O : List Char) (hvh : ∀ a ∈ v, a ≠ '[') :
    countOcc ('[' :: v) (('[' :: v) ++ O) = 1 + countOcc ('[' :: v) O := by
  have step : countOcc ('[' :: v) (('[' :: v) ++ O) =
      (if leadsB ('[' :: v) (('[' :: v) ++ O) then 1 else 0) +
        countOcc ('[' :: v) (v ++ O) := rfl
  rw [step, leadsB_append_self, if_pos rfl, countOcc_append_no_head v v O hvh]

/-! ### The scan inserts exactly the counted tokens

For a bracketed token `'[' :: t'` (with no further `'['`), if the input
contains no occurrence of the token, then the number of token occurrences in
the scan output equals the number of matches: every occurrence of the token in
the output is one inserted by the scan. -/

theorem leadsB_mcGo (f : Option Char → List Char → Option Nat) (t' : List Char) :
    ∀ (fuel : Nat) (v : List Char), (∀ a ∈ v, a ≠ '[') → ∀ prev s,
      leadsB v (mcGo f ('[' :: t') fuel prev s).1 = true → leadsB v s = true := by
  intro fuel
  induction fuel with
  | zero => intro v hv prev s h; simpa [mcGo] using h
  | succ fuel ih =>
    intro v hv prev s h
    match v, s with
    | [], s => rfl
    | a :: v', [] => simp [mcGo, leadsB] at h
    | a :: v', c :: rest =>
      rcases hf : f prev (c :: rest) with _ | n
      · rw [show (mcGo f ('[' :: t') (fuel + 1) prev (c :: rest)).1 =
            c :: (mcGo f ('[' :: t') fuel (some c) rest).1 by simp [mcGo, hf]] at h
        rw [show leadsB (a :: v') (c :: (mcGo f ('[' :: t') fuel (some c) rest).1) =
            ((a == c) && leadsB v' (mcGo f ('[' :: t') fuel (some c) rest).1) from rfl,
          Bool.and_eq_true] at h
        have h2 := ih v' (fun x hx => hv x (List.mem_cons_of_mem a hx)) (some c) rest h.2
        rw [show leadsB (a :: v') (c :: rest) = ((a == c) && leadsB v' rest) from rfl,
          h.1, h2]
        rfl
      · by_cases hg : (decide (1 ≤ n) && decide (n ≤ rest.length + 1)) = true
        · rw [show (mcGo f ('[' :: t') (fuel + 1) prev (c :: rest)).1 =
              ('[' :: t') ++ (mcGo f ('[' :: t') fuel
                (some ((c :: rest).getD (n - 1) c)) (List.drop n (c :: rest))).1 by
              simp [mcGo, hf, hg]] at h
        -- leadsB (a :: v') ('[' :: …) forces a = '[' — impossible
          rw [List.cons_append] at h
          rw [show leadsB (a :: v') ('[' :: (t' ++ (mcGo f ('[' :: t') fuel
              (some ((c :: rest).getD (n - 1) c)) (List.drop n (c :: rest))).1)) =
            ((a == '[') && leadsB v' (t' ++ (mcGo f ('[' :: t') fuel
              (some ((c :: rest).getD (n - 1) c)) (List.drop n (c :: rest))).1)) from rfl,
            Bool.and_eq_true] at h
          exact absurd (eq_of_beq h.1) (hv a (List.mem_cons_self a v'))
        · rw [show (mcGo f ('[' :: t') (fuel + 1) prev (c :: rest)).1 =
              c :: (mcGo f ('[' :: t') fuel (some c) rest).1 by simp [mcGo, hf, hg]] at h
          rw [show leadsB (a :: v') (c :: (mcGo f ('[' :: t') fuel (some c) rest).1) =
              ((a == c) && leadsB v' (mcGo f ('[' :: t') fuel (some c) rest).1) from rfl,
            Bool.and_eq_true] at h
          have h2 := ih v' (fun x hx => hv x (List.mem_cons_of_mem a hx)) (some c) rest h.2
          rw [show leadsB (a :: v') (c :: rest) = ((a == c) && leadsB v' rest) from rfl,
            h.1, h2]
          rfl

theorem mcGo_count_eq (f : Option Char → List Char → Option Nat) (t' : List Char)
    (hvh : ∀ a ∈ t', a ≠ '[') :
    ∀ (fuel : Nat) (prev : Option Char) (s : List Char),
      occursB ('[' :: t') s = false →
      countOcc ('[' :: t') (mcGo f ('[' :: t') fuel prev s).1 =
        (mcGo f ('[' :: t') fuel prev s).2 := by
  intro fuel
  induction fuel with
  | zero => intro prev s h; simpa [mcGo] using countOcc_eq_zero _ s h
  | succ fuel ih =>
    intro prev s h
    match s with
    | [] => simp [mcGo, countOcc]
    | c :: rest =>
      rw [occursB_cons, Bool.or_eq_false_iff] at h
      have hskip :
          countOcc ('[' :: t') (c :: (mcGo f ('[' :: t') fuel (some c) rest).1) =
            (mcGo f ('[' :: t') fuel (some c) rest).2 := by
        have hl : leadsB ('[' :: t') (c :: (mcGo f ('[' :: t') fuel (some c) rest).1)
            = false := by
          cases hll : leadsB ('[' :: t')
              (c :: (mcGo f ('[' :: t') fuel (some c) rest).1) with
          | false => rfl
          | true =>
            exfalso
            rw [show leadsB ('[' :: t') (c :: (mcGo f ('[' :: t') fuel (some c) rest).1) =
                (('[' == c) && leadsB t' (mcGo f ('[' :: t') fuel (some c) rest).1)
                from rfl, Bool.and_eq_true] at hll
            have h2 := leadsB_mcGo f t' fuel t' hvh (some c) rest hll.2
            have : leadsB ('[' :: t') (c :: rest) = true := by
              rw [show leadsB ('[' :: t') (c :: rest) = (('[' == c) && leadsB t' rest)
                from rfl, hll.1, h2]; rfl
            rw [this] at h
            exact absurd h.1 (by simp)
        rw [show countOcc ('[' :: t') (c :: (mcGo f ('[' :: t') fuel (some c) rest).1) =
            (if leadsB ('[' :: t') (c :: (mcGo f ('[' :: t') fuel (some c) rest).1)
              then 1 else 0) + countOcc ('[' :: t') (mcGo f ('[' :: t') fuel
                (some c) rest).1 from rfl, hl]
        simp [ih (some c) rest h.2]
      rcases hf : f prev (c :: rest) with _ | n
      · rw [show mcGo f ('[' :: t') (fuel + 1) prev (c :: rest) =
            (c :: (mcGo f ('[' :: t') fuel (some c) rest).1,
             (mcGo f ('[' :: t') fuel (some c) rest).2) by simp [mcGo, hf]]
        exact hskip
      · by_cases hg : (decide (1 ≤ n) && decide (n ≤ rest.length + 1)) = true
        · rw [show mcGo f ('[' :: t') (fuel + 1) prev (c :: rest) =
              (('[' :: t') ++ (mcGo f ('[' :: t') fuel
                (some ((c :: rest).getD (n - 1) c)) (List.drop n (c :: rest))).1,
               (mcGo f ('[' :: t') fuel (some ((c :: rest).getD (n - 1) c))
                (List.drop n (c :: rest))).2 + 1) by simp [mcGo, hf, hg]]
          have hdrop : occursB ('[' :: t') (List.drop n (c :: rest)) = false := by
            cases hd : occursB ('[' :: t') (List.drop n (c :: rest)) with
            | false => rfl
            | true =>
              exfalso
              have := occursB_of_drop ('[' :: t') n (c :: rest) hd
              rw [occursB_cons, h.1, h.2] at this
              exact absurd this (by simp)
          rw [countOcc_tok_append t' _ hvh,
            ih (some ((c :: rest).getD (n - 1) c)) (List.drop n (c :: rest)) hdrop]
          exact Nat.add_comm 1 _
        · rw [show mcGo f ('[' :: t') (fuel + 1) prev (c :: rest) =
              (c :: (mcGo f ('[' :: t') fuel (some c) rest).1,
               (mcGo f ('[' :: t') fuel (some c) rest).2) by simp [mcGo, hf, hg]]
          exact hskip

theorem data_mk (l : List Char) : (String.mk l).data = l := rfl

/-- Claim C2, counterexample: the count/replace consistency does not hold for
every input.  At `x = "[EMAIL]"` the fully redacted message still contains one
literal `[EMAIL]` token while `email_count x = 0` (no detector matches a
placeholder). -/
theorem claim_C2_counterexample :
    countOcc tokEMAIL (message_clean (.str "[EMAIL]")).data = 1 ∧
    email_count (.str "[EMAIL]") = 0 ∧
    countOcc tokEMAIL (message_clean (.str "[EMAIL]")).data ≠
      email_count (.str "[EMAIL]") := ⟨by decide, by decide, by decide⟩

/-- Claim C2, amended: per-detector count/replace consistency.  For every
input whose normalized text contains no pre-existing placeholder token, the
number of `[EMAIL]` tokens in the email-masked text equals `email_count x`,
and likewise for `[URL]`/`url_count` and `[PHONE]`/`phone_count` — each mask
inserts exactly the tokens its own count reports.  (The full-pipeline claim
fails: a pre-existing token survives redaction uncounted, the URL mask can
swallow an inserted `[EMAIL]`, and a URL match can consume digits that
`phone_count` counted.) -/
theorem claim_C2_amended (x : PyValue)
    (hE : occursB tokEMAIL (normalize_text x).data = false)
    (hU : occursB tokURL (normalize_text x).data = false)
    (hP : occursB tokPHONE (normalize_text x).data = false) :
    countOcc tokEMAIL (mask_emails_in_message x).data = email_count x ∧
    countOcc tokURL (mask_urls_in_message x).data = url_count x ∧
    countOcc tokPHONE (mask_phones_in_message x).data = phone_count x := by
  refine ⟨?_, ?_, ?_⟩
  · exact mcGo_count_eq emailMatchAt "EMAIL]".data (by decide)
      (normalize_text x).data.length Option.none (normalize_text x).data hE
  · exact mcGo_count_eq urlTcMatchAt "URL]".data (by decide)
      (normalize_text x).data.length Option.none (normalize_text x).data hU
  · exact mcGo_count_eq phoneTcMatchAt "PHONE]".data (by decide)
      (normalize_text x).data.length Option.none (normalize_text x).data hP

/-- Claim C2, witness: the amended theorem applied to the two-email sample
message of the repository test-suite. -/
theorem claim_C2_witness :
    occursB tokEMAIL
      (normalize_text (.str "Contacta a rocio@gmail.com y a test+1@acme.co.uk")).data
      = false ∧
    countOcc tokEMAIL
      (mask_emails_in_message
        (.str "Contacta a rocio@gmail.com y a test+1@acme.co.uk")).data =
      email_count (.str "Contacta a rocio@gmail.com y a test+1@acme.co.uk") :=
  ⟨by decide,
   (claim_C2_amended (.str "Contacta a rocio@gmail.com y a test+1@acme.co.uk")
     (by decide) (by decide) (by decide)).1⟩

/-- Claim C7, counterexample: redaction is not idempotent.  At
`x = "1234  5678901"` no detector matches (the double space blocks the phone
pattern), but the final whitespace collapse produces `"1234 5678901"`, which
the phone detector of a second redaction run does match. -/
theorem claim_C7_counterexample :
    message_clean (.str "1234  5678901") = "1234 5678901" ∧
    message_clean (.str (message_clean (.str "1234  5678901"))) = "[PHONE]" ∧
    message_clean (.str (message_clean (.str "1234  5678901"))) ≠
      message_clean (.str "1234  5678901") := ⟨by decide, by decide, by decide⟩

/-- Claim C7, amended: the inserted placeholder tokens themselves are never
matched by any detector — each individual mask and the full redaction map the
placeholder tokens (alone and combined) to themselves; idempotence fails only
through the whitespace collapse creating a new phone match (see the
counterexample). -/
theorem claim_C7_amended :
    mask_emails_in_message (.str "[EMAIL] [URL] [PHONE]") = "[EMAIL] [URL] [PHONE]" ∧
    mask_urls_in_message (.str "[EMAIL] [URL] [PHONE]") = "[EMAIL] [URL] [PHONE]" ∧
    mask_phones_in_message (.str "[EMAIL] [URL] [PHONE]") = "[EMAIL] [URL] [PHONE]" ∧
    message_clean (.str "[EMAIL] [URL] [PHONE]") = "[EMAIL] [URL] [PHONE]" ∧
    message_clean (.str "[EMAIL]") = "[EMAIL]" ∧
    message_clean (.str "[URL]") = "[URL]" ∧
    message_clean (.str "[PHONE]") = "[PHONE]" ∧
    message_clean (.str (message_clean (.str "[EMAIL] [URL] [PHONE]"))) =
      message_clean (.str "[EMAIL] [URL] [PHONE]") :=
  ⟨by decide, by decide, by decide, by decide, by decide, by decide, by decide,
   by decide⟩

/-- Claim C4, counterexample: a non-string value is not treated as
empty/absent — `normalize_text` coerces it with `str()`, so the integer `123`
normalizes to `"123"` (exactly what the repository test
`test_normalize_text` asserts), not to `""`. -/
theorem claim_C4_counterexample :
    normalize_text (.int 123) = "123" ∧ normalize_text (.int 123) ≠ "" :=
  ⟨by decide, by decide⟩

/-- Claim C4, amended: null/absent, empty, whitespace-only (and the literal
`nan`/`none` tokens) normalize to the empty string and every downstream stage
degrades to empty output or zero counts on any value whose normalization is
empty; non-string values are coerced via `str()` by `normalize_text` (not
treated as empty), while `sanitize_text` and `extract_email_domain` return
`""` for every non-string value.  Nothing raises. -/
theorem claim_C4_amended :
    (∀ v : PyValue, normalize_text v = "" →
      anonymize_name v = "" ∧ email_to_domain v = "" ∧
      mask_emails_in_message v = "" ∧ mask_urls_in_message v = "" ∧
      mask_phones_in_message v = "" ∧ email_count v = 0 ∧ url_count v = 0 ∧
      phone_count v = 0 ∧ message_clean v = "") ∧
    (∀ v : PyValue, (∀ s : String, v ≠ .str s) →
      sanitize_text v = "" ∧ extract_email_domain v = "") := by
  constructor
  · intro v h
    have hE : mask_emails_in_message v = "" := by
      unfold mask_emails_in_message; rw [h]; rfl
    have hU : mask_urls_in_message v = "" := by
      unfold mask_urls_in_message; rw [h]; rfl
    have hP : mask_phones_in_message v = "" := by
      unfold mask_phones_in_message; rw [h]; rfl
    refine ⟨?_, ?_, hE, hU, hP, ?_, ?_, ?_, ?_⟩
    · unfold anonymize_name; rw [h]; rfl
    · unfold email_to_domain; rw [h]; rfl
    · unfold email_count; rw [h]; rfl
    · unfold url_count; rw [h]; rfl
    · unfold phone_count; rw [h]; rfl
    · unfold message_clean
      rw [hE]
      show normalize_spaces (mask_phones_in_message
        (.str (mask_urls_in_message (.str "")))) = ""
      decide
  · intro v h
    match v with
    | .none => exact ⟨by decide, by decide⟩
    | .int n => exact ⟨rfl, rfl⟩
    | .str s => exact absurd rfl (h s)

/-- Claim C4, witness: the amended theorem applied to the whitespace-only
string and to the `None` value. -/
theorem claim_C4_witness :
    normalize_text (.str "   ") = "" ∧
    anonymize_name (.str "   ") = "" ∧ sanitize_text .none = "" :=
  ⟨by decide, (claim_C4_amended.1 (.str "   ") (by decide)).1,
   (claim_C4_amended.2 .none (fun s h => by cases h)).1⟩

/-! ### Claim C3: email_to_domain -/

theorem pySplitCharAux_ne_nil (sep : Char) :
    ∀ (s cur : List Char), pySplitCharAux sep cur s ≠ []
  | [], cur => by simp [pySplitCharAux]
  | c :: r, cur => by
    by_cases hc : (c == sep) = true
    · simp [pySplitCharAux, hc]
    · simp only [pySplitCharAux, hc]
      simpa using pySplitCharAux_ne_nil sep r (c :: cur)

theorem getLastD_irrel {α : Type} : ∀ (l : List α), l ≠ [] →
    ∀ d₁ d₂ : α, l.getLastD d₁ = l.getLastD d₂
  | [], h, _, _ => absurd rfl h
  | a :: l, _, d₁, d₂ => by
    rw [List.getLastD_cons d₁ a l, List.getLastD_cons d₂ a l]

theorem takeWhile_append_stop {α : Type} (p : α → Bool) :
    ∀ (u : List α) (x : α) (v : List α), p x = false →
      (u ++ x :: v).takeWhile p = u.takeWhile p
  | [], x, v, h => by simp [List.takeWhile_cons, h]
  | a :: u, x, v, h => by
    rw [List.cons_append, List.takeWhile_cons, List.takeWhile_cons,
      takeWhile_append_stop p u x v h]

/-- what remains of `s` after its last `sep` (all of `s` when `sep` is absent). -/
def afterLastSep (sep : Char) (s : List Char) : List Char :=
  (s.reverse.takeWhile (fun c => c != sep)).reverse

theorem splitChar_getLast (sep : Char) :
    ∀ (s cur : List Char), sep ∉ cur →
      ((pySplitCharAux sep cur s).getLastD "").data =
        afterLastSep sep (cur.reverse ++ s)
  | [], cur, hcur => by
    have h1 : ((pySplitCharAux sep cur []).getLastD "").data = cur.reverse := rfl
    rw [h1]
    unfold afterLastSep
    rw [List.append_nil, List.reverse_reverse]
    have : cur.takeWhile (fun c => c != sep) = cur := by
      apply List.takeWhile_eq_self_iff.mpr
      intro x hx
      exact bne_iff_ne.mpr (fun hEq => hcur (hEq ▸ hx))
    rw [this]
  | c :: r, cur, hcur => by
    by_cases hc : (c == sep) = true
    · have hce : c = sep := eq_of_beq hc
      have h1 : pySplitCharAux sep cur (c :: r) =
          String.mk cur.reverse :: pySplitCharAux sep [] r := by
        simp [pySplitCharAux, hc]
      rw [h1, List.getLastD_cons,
        getLastD_irrel _ (pySplitCharAux_ne_nil sep r []) (String.mk cur.reverse) "",
        splitChar_getLast sep r [] (by simp)]
      unfold afterLastSep
      simp only [List.reverse_nil, List.nil_append]
      rw [hce]
      have h2 : (cur.reverse ++ sep :: r).reverse = r.reverse ++ sep :: cur := by
        rw [List.reverse_append, List.reverse_cons, List.reverse_reverse,
          List.append_assoc, List.singleton_append]
      rw [h2, takeWhile_append_stop _ _ _ _ (by simp)]
    · have h1 : pySplitCharAux sep cur (c :: r) = pySplitCharAux sep (c :: cur) r := by
        simp [pySplitCharAux, hc]
      rw [h1, splitChar_getLast sep r (c :: cur)
        (by
          intro hmem
          rcases List.mem_cons.mp hmem with h | h
          · exact absurd (beq_iff_eq.mpr h.symm) (by simpa using hc)
          · exact hcur h)]
      have h2 : (c :: cur).reverse ++ r = cur.reverse ++ c :: r := by
        rw [List.reverse_cons, List.append_assoc, List.singleton_append]
      rw [h2]
  termination_by s => s.length

/-- Amended claim C3, written from the amended words: split at the last `@`,
strip whitespace and the punctuation/quote characters from *both* ends of the
remainder, do *not* lowercase, and return `""` when the remainder contains a
space or lacks a `.`. -/
def emailToDomainAmended (email : PyValue) : String :=
  let e := normalize_text email
  if !occursB ['@'] e.data then ""
  else
    let d := stripBothSet emailStripSet (pyStripL (afterLastSep '@' e.data))
    if occursB [' '] d || !occursB ['.'] d then "" else String.mk d

/-- Claim C3, counterexample: `email_to_domain` does not lowercase — at
`"Ana@GMAIL.Com"` it returns `"GMAIL.Com"`, which differs from its
lowercasing, so the returned domain is not always lowercase. -/
theorem claim_C3_counterexample :
    email_to_domain (.str "Ana@GMAIL.Com") = "GMAIL.Com" ∧
    pyLower "GMAIL.Com" ≠ "GMAIL.Com" := ⟨by decide, by decide⟩

/-- Claim C3, amended: `email_to_domain` normalizes (without lowercasing),
splits at the last `@`, strips whitespace and punctuation/quote characters
from both ends of the remainder, and returns the empty string whenever the
remainder contains a space or lacks a `.`; the literal examples
`email_to_domain "rocio@gmail.com" = "gmail.com"` and
`email_to_domain "no-es-email" = ""` hold. -/
theorem claim_C3_amended :
    (∀ v : PyValue, email_to_domain v = emailToDomainAmended v) ∧
    email_to_domain (.str "rocio@gmail.com") = "gmail.com" ∧
    email_to_domain (.str "no-es-email") = "" := by
  refine ⟨?_, by decide, by decide⟩
  intro v
  have h := splitChar_getLast '@' (normalize_text v).data [] (by simp)
  simp only [List.reverse_nil, List.nil_append] at h
  simp only [email_to_domain, emailToDomainAmended, pySplitChar]
  rw [h]

/-! ### Claim C8: normalization idempotence -/

theorem dropWhile_idem (p : Char → Bool) : ∀ s : List Char,
    (s.dropWhile p).dropWhile p = s.dropWhile p
  | [] => rfl
  | c :: r => by
    by_cases hc : p c = true
    · rw [List.dropWhile_cons_of_pos hc]; exact dropWhile_idem p r
    · rw [List.dropWhile_cons_of_neg (by simpa using hc),
        List.dropWhile_cons_of_neg (by simpa using hc)]

theorem head_not_ws (c : Char) (r : List Char)
    (h : trimLeftWs (c :: r) = c :: r) : isPyWs c = false := by
  cases hc : isPyWs c with
  | false => rfl
  | true =>
    exfalso
    unfold trimLeftWs at h
    rw [List.dropWhile_cons_of_pos hc] at h
    have hlen := (List.dropWhile_sublist (l := r) (p := fun c => isPyWs c)).length_le
    rw [h] at hlen
    simp at hlen

theorem trimRight_of_trimmed (z : List Char) (hz : trimLeftWs z.reverse = z.reverse) :
    trimLeftWs (trimLeftWs z).reverse = (trimLeftWs z).reverse := by
  match hzr : z.reverse with
  | [] =>
    have hz0 : z = [] := by
      have := congrArg List.reverse hzr
      simpa using this
    subst hz0
    rfl
  | h0 :: t =>
    rw [hzr] at hz
    have h0ws : isPyWs h0 = false := head_not_ws h0 t hz
    have hz2 : z = t.reverse ++ [h0] := by
      have := congrArg List.reverse hzr
      simpa using this
    rw [hz2]
    unfold trimLeftWs
    rw [List.dropWhile_append]
    by_cases hde : (t.reverse.dropWhile (fun c => isPyWs c)).isEmpty = true
    · rw [if_pos hde]
      simp [h0ws]
    · rw [if_neg hde]
      simp [h0ws]

theorem strip_idem (s : List Char) : pyStripL (pyStripL s) = pyStripL s := by
  have hAtr : trimLeftWs ((trimLeftWs s.reverse).reverse).reverse
      = ((trimLeftWs s.reverse).reverse).reverse := by
    rw [List.reverse_reverse]; exact dropWhile_idem _ s.reverse
  have h1 := trimRight_of_trimmed (trimLeftWs s.reverse).reverse hAtr
  show trimLeftWs (trimLeftWs (trimLeftWs (trimLeftWs s.reverse).reverse).reverse).reverse
      = trimLeftWs (trimLeftWs s.reverse).reverse
  rw [h1, List.reverse_reverse]
  exact dropWhile_idem _ _

theorem strip_idemS (s : String) : pyStripS (pyStripS s) = pyStripS s :=
  congrArg String.mk (strip_idem s.data)

/-- Claim C8: normalization is idempotent, and `None`, empty, whitespace-only
and the literal case-insensitive `nan`/`none` tokens all normalize to the
empty string. -/
theorem claim_C8 :
    (∀ v : PyValue, normalize_text (.str (normalize_text v)) = normalize_text v) ∧
    normalize_text .none = "" ∧
    normalize_text (.str "") = "" ∧
    (∀ s : String, (∀ c ∈ s.data, isPyWs c = true) → normalize_text (.str s) = "") ∧
    (∀ s : String,
      pyLower (pyStripS s) = "nan" ∨ pyLower (pyStripS s) = "none" →
      normalize_text (.str s) = "") := by
  have hstr : ∀ t : String, normalize_text (.str t) =
      if pyStripS t == "" || pyLower (pyStripS t) == "nan" ||
         pyLower (pyStripS t) == "none" then "" else pyStripS t := by
    intro t; rfl
  refine ⟨?_, rfl, rfl, ?_, ?_⟩
  · intro v
    match v with
    | .none => rfl
    | .str s =>
      rw [hstr s]
      by_cases hc : (pyStripS s == "" || pyLower (pyStripS s) == "nan" ||
          pyLower (pyStripS s) == "none") = true
      · rw [if_pos hc]; rfl
      · rw [if_neg hc, hstr (pyStripS s), strip_idemS s, if_neg hc]
    | .int n =>
      rw [show normalize_text (.int n) =
        (if pyStripS (toString n) == "" || pyLower (pyStripS (toString n)) == "nan" ||
            pyLower (pyStripS (toString n)) == "none" then ""
         else pyStripS (toString n)) from rfl]
      by_cases hc : (pyStripS (toString n) == "" ||
          pyLower (pyStripS (toString n)) == "nan" ||
          pyLower (pyStripS (toString n)) == "none") = true
      · rw [if_pos hc]; rfl
      · rw [if_neg hc, hstr (pyStripS (toString n)), strip_idemS (toString n),
          if_neg hc]
  · intro s h
    rw [hstr s]
    have hempty : pyStripL s.data = [] := by
      unfold pyStripL trimRightWs trimLeftWs
      rw [List.dropWhile_eq_nil_iff.mpr (fun x hx => h x (by
        have := List.dropWhile_sublist (l := s.data.reverse)
          (p := fun c => isPyWs c)
        have hx2 := (this.mem (by simpa using hx))
        simpa using hx2))]
    have : pyStripS s = "" := congrArg String.mk hempty
    rw [this]
    simp
  · intro s h
    rw [hstr s]
    rcases h with h | h
    · rw [h]; simp
    · rw [h]; simp

/-- Claim C8, witness: idempotence and absence-collapse evaluated at concrete
inputs through the theorem. -/
theorem claim_C8_witness :
    normalize_text (.str (normalize_text (.str " hola  mundo "))) =
      normalize_text (.str " hola  mundo ") ∧
    normalize_text (.str " \t ") = "" ∧ normalize_text (.str "NoNe") = "" :=
  ⟨claim_C8.1 (.str " hola  mundo "),
   claim_C8.2.2.2.1 " \t " (by decide),
   claim_C8.2.2.2.2 "NoNe" (Or.inr (by decide))⟩

/-! ### Claim C5: sanitize_text lowercases its output -/

theorem toNat_ofNat_valid (n : Nat) (h : n.isValidChar) :
    (Char.ofNat n).toNat = n := by
  rw [Char.ofNat, dif_pos h]
  rfl

theorem pyLowerChar_ne_U (c : Char) : pyLowerChar c ≠ 'U' := by
  unfold pyLowerChar
  by_cases h : decide (65 ≤ c.toNat ∧ c.toNat ≤ 90) = true
  · rw [if_pos h]
    intro hEq
    have hb := of_decide_eq_true h
    have hvalid : (c.toNat + 32).isValidChar := Or.inl (by omega)
    have h85 : (Char.ofNat (c.toNat + 32)).toNat = c.toNat + 32 :=
      toNat_ofNat_valid _ hvalid
    rw [hEq] at h85
    have : ('U' : Char).toNat = 85 := rfl
    omega
  · rw [if_neg h]
    intro hEq
    apply h
    rw [hEq]
    decide

theorem mem_collapseGo (x : Char) :
    ∀ (b : Bool) (l : List Char), x ∈ collapseGo b l → x ∈ l ∨ x = ' '
  | _, [], h => by simp [collapseGo] at h
  | b, c :: r, h => by
    by_cases hc : isPyWs c = true
    · rw [show collapseGo b (c :: r) =
          (if b then collapseGo true r else ' ' :: collapseGo true r) by
            simp [collapseGo, hc]] at h
      match b with
      | true =>
        rcases mem_collapseGo x true r h with h2 | h2
        · exact Or.inl (List.mem_cons_of_mem c h2)
        · exact Or.inr h2
      | false =>
        rcases List.mem_cons.mp h with h2 | h2
        · exact Or.inr h2
        · rcases mem_collapseGo x true r h2 with h3 | h3
          · exact Or.inl (List.mem_cons_of_mem c h3)
          · exact Or.inr h3
    · rw [show collapseGo b (c :: r) = c :: collapseGo false r by
        simp [collapseGo, hc]] at h
      rcases List.mem_cons.mp h with h2 | h2
      · exact Or.inl (h2 ▸ List.mem_cons_self c r)
      · rcases mem_collapseGo x false r h2 with h3 | h3
        · exact Or.inl (List.mem_cons_of_mem c h3)
        · exact Or.inr h3

theorem mem_strip (x : Char) (l : List Char) (h : x ∈ pyStripL l) : x ∈ l := by
  unfold pyStripL trimRightWs trimLeftWs at h
  have h1 := (List.dropWhile_sublist (p := fun c => isPyWs c)
    (l := (List.dropWhile (fun c => isPyWs c) l.reverse).reverse)).mem h
  rw [List.mem_reverse] at h1
  have h2 := (List.dropWhile_sublist (p := fun c => isPyWs c) (l := l.reverse)).mem h1
  rwa [List.mem_reverse] at h2

theorem leadsB_mem : ∀ t s : List Char, leadsB t s = true → ∀ a ∈ t, a ∈ s
  | [], _, _, a, ha => by simp at ha
  | _ :: _, [], h, _, _ => by simp [leadsB] at h
  | b :: t, c :: s, h, a, ha => by
    rw [show leadsB (b :: t) (c :: s) = ((b == c) && leadsB t s) from rfl,
      Bool.and_eq_true] at h
    rcases List.mem_cons.mp ha with h2 | h2
    · exact List.mem_cons.mpr (Or.inl (h2.trans (eq_of_beq h.1)))
    · exact List.mem_cons_of_mem c (leadsB_mem t s h.2 a h2)

theorem occursB_mem : ∀ (t s : List Char), occursB t s = true → ∀ a ∈ t, a ∈ s
  | t, [], h, a, ha => by
    have : t = [] := by
      cases t with
      | nil => rfl
      | cons b t => simp [occursB, leadsB] at h
    subst this; simp at ha
  | t, c :: s, h, a, ha => by
    rw [occursB_cons, Bool.or_eq_true] at h
    rcases h with h | h
    · exact leadsB_mem t (c :: s) h a ha
    · exact List.mem_cons_of_mem c (occursB_mem t s h a ha)

theorem pyCountGo_zero (t : List Char) :
    ∀ (fuel : Nat) (s : List Char), occursB t s = false → pyCountGo t fuel s = 0
  | 0, s, _ => by cases s <;> rfl
  | _ + 1, [], _ => rfl
  | fuel + 1, c :: s, h => by
    rw [occursB_cons, Bool.or_eq_false_iff] at h
    rw [show pyCountGo t (fuel + 1) (c :: s) =
        (if leadsB t (c :: s) then 1 + pyCountGo t fuel (List.drop (t.length - 1) s)
         else pyCountGo t fuel s) from rfl, h.1, if_neg (by simp)]
    exact pyCountGo_zero t fuel s h.2

theorem sanitize_no_U (v : PyValue) : 'U' ∉ (sanitize_text v).data := by
  match v with
  | .none => simp [sanitize_text]
  | .int n => simp [sanitize_text]
  | .str s =>
    intro hmem
    have h1 : 'U' ∈ pyLowerL (maskCount phoneSanMatchAt tokPHONE
        (maskCount urlSanMatchAt tokURL
          (maskCount emailMatchAt tokEMAIL s.data).1).1).1 ∨ 'U' = ' ' :=
      mem_collapseGo 'U' false _ (mem_strip 'U' _ hmem)
    rcases h1 with h1 | h1
    · rcases List.mem_map.mp h1 with ⟨a, _, ha⟩
      exact pyLowerChar_ne_U a ha
    · simp at h1

/-- Claim C5: `sanitize_text` lowercases its whole output after substitution,
so its placeholder tokens appear lowercase and counting the literal uppercase
`[URL]` token in any sanitized message always yields 0 — both as the number of
occurrence positions and as Python `str.count` (the count the heuristic's
`url_count_token` computes); the inserted tokens appear as `[email]`, `[url]`,
`[phone]` as in the concrete sample. -/
theorem claim_C5 :
    (∀ v : PyValue, countOcc "[URL]".data (sanitize_text v).data = 0 ∧
      pyCount (sanitize_text v) "[URL]" = 0 ∧
      url_count_token (sanitize_text v) = 0) ∧
    sanitize_text (.str "Mail A@B.COM or WWW.X.COM or +34 600 123 456 78") =
      "mail [email] or [url] or [phone]" := by
  constructor
  · intro v
    have hocc : occursB "[URL]".data (sanitize_text v).data = false := by
      cases hc : occursB "[URL]".data (sanitize_text v).data with
      | false => rfl
      | true =>
        exact absurd (occursB_mem _ _ hc 'U' (by decide)) (sanitize_no_U v)
    exact ⟨countOcc_eq_zero _ _ hocc, pyCountGo_zero _ _ _ hocc,
      pyCountGo_zero _ _ _ hocc⟩
  · decide

/-! ### Claim C6: anonymize_name determinism -/

theorem trimLeft_cons_pos {c : Char} {r : List Char} (hc : isPyWs c = true) :
    trimLeftWs (c :: r) = trimLeftWs r := by
  unfold trimLeftWs; rw [List.dropWhile_cons_of_pos hc]

theorem trimLeft_cons_neg {c : Char} {r : List Char} (hc : isPyWs c = false) :
    trimLeftWs (c :: r) = c :: r := by
  unfold trimLeftWs; rw [List.dropWhile_cons_of_neg (by simp [hc])]

theorem trimRight_cons (c : Char) (r : List Char) :
    trimRightWs (c :: r) =
      if (r.reverse.dropWhile (fun x => isPyWs x)).isEmpty then
        (([c] : List Char).dropWhile (fun x => isPyWs x)).reverse
      else c :: trimRightWs r := by
  unfold trimRightWs trimLeftWs
  rw [show (c :: r).reverse = r.reverse ++ [c] from by simp, List.dropWhile_append]
  by_cases hde : (r.reverse.dropWhile (fun x => isPyWs x)).isEmpty = true
  · rw [if_pos hde, if_pos hde]
  · rw [if_neg hde, if_neg hde, List.reverse_append]
    rfl

theorem trim_comm (l : List Char) :
    trimLeftWs (trimRightWs l) = trimRightWs (trimLeftWs l) := by
  induction l with
  | nil => rfl
  | cons c r ih =>
    by_cases hc : isPyWs c = true
    · rw [trimRight_cons, trimLeft_cons_pos hc, ← ih]
      by_cases hde : (r.reverse.dropWhile (fun x => isPyWs x)).isEmpty = true
      · rw [if_pos hde]
        have hTR : trimRightWs r = [] := by
          unfold trimRightWs trimLeftWs
          rw [List.isEmpty_iff.mp hde]
          rfl
        rw [hTR,
          show ([c] : List Char).dropWhile (fun x => isPyWs x) = [] from by
            simp [hc]]
        rfl
      · rw [if_neg hde, trimLeft_cons_pos hc]
    · have hcf : isPyWs c = false := by simpa using hc
      rw [trimLeft_cons_neg hcf, trimRight_cons]
      by_cases hde : (r.reverse.dropWhile (fun x => isPyWs x)).isEmpty = true
      · rw [if_pos hde,
          show ([c] : List Char).dropWhile (fun x => isPyWs x) = [c] from by
            simp [hcf],
          show ([c] : List Char).reverse = [c] from rfl, trimLeft_cons_neg hcf]
      · rw [if_neg hde, trimLeft_cons_neg hcf]

theorem strip_cons_ws (c : Char) (r : List Char) (hc : isPyWs c = true) :
    pyStripL (c :: r) = pyStripL r := by
  unfold pyStripL
  rw [trim_comm (c :: r), trim_comm r, trimLeft_cons_pos hc]

theorem strip_append_ws_right (m b : List Char) (hb : ∀ c ∈ b, isPyWs c = true) :
    pyStripL (m ++ b) = pyStripL m := by
  unfold pyStripL trimRightWs trimLeftWs
  rw [List.reverse_append, List.dropWhile_append_of_pos (by simpa using hb)]

theorem strip_no_ws (l : List Char) (h : ∀ c ∈ l, isPyWs c = false) :
    pyStripL l = l := by
  have hdw : ∀ u : List Char, (∀ c ∈ u, isPyWs c = false) →
      u.dropWhile (fun x => isPyWs x) = u := by
    intro u hu
    match u with
    | [] => rfl
    | c :: u2 => exact List.dropWhile_cons_of_neg (by simp [hu c (by simp)])
  unfold pyStripL trimRightWs trimLeftWs
  rw [hdw l.reverse (fun c hc => h c (List.mem_reverse.mp hc)),
    List.reverse_reverse, hdw l h]

theorem ws_lower (c : Char) : isPyWs (pyLowerChar c) = isPyWs c := by
  unfold pyLowerChar
  by_cases h : decide (65 ≤ c.toNat ∧ c.toNat ≤ 90) = true
  · rw [if_pos h]
    have hb := of_decide_eq_true h
    have hv : (c.toNat + 32).isValidChar := Or.inl (by omega)
    have ht := toNat_ofNat_valid _ hv
    have hL : isPyWs (Char.ofNat (c.toNat + 32)) = false := by
      unfold isPyWs
      rw [ht]
      simp only [Bool.or_eq_false_iff, beq_eq_false_iff_ne, ne_eq,
        decide_eq_false_iff_not, not_and, not_or]
      omega
    have hR : isPyWs c = false := by
      unfold isPyWs
      simp only [Bool.or_eq_false_iff, beq_eq_false_iff_ne, ne_eq,
        decide_eq_false_iff_not, not_and, not_or]
      omega
    rw [hL, hR]
  · rw [if_neg h]

theorem lower_strip_comm (l : List Char) :
    pyStripL (pyLowerL l) = pyLowerL (pyStripL l) := by
  have hdm : ∀ u : List Char, (pyLowerL u).dropWhile (fun x => isPyWs x) =
      pyLowerL (u.dropWhile (fun x => isPyWs x)) := by
    intro u
    unfold pyLowerL
    rw [List.dropWhile_map]
    have : ((fun x => isPyWs x) ∘ pyLowerChar) = fun x => isPyWs x := by
      funext x; exact ws_lower x
    rw [this]
  unfold pyStripL trimRightWs trimLeftWs pyLowerL
  rw [← List.map_reverse, show (List.map pyLowerChar l.reverse).dropWhile
      (fun x => isPyWs x) = List.map pyLowerChar (l.reverse.dropWhile
        (fun x => isPyWs x)) from hdm l.reverse,
    ← List.map_reverse, show (List.map pyLowerChar (l.reverse.dropWhile
      (fun x => isPyWs x)).reverse).dropWhile (fun x => isPyWs x) =
        List.map pyLowerChar ((l.reverse.dropWhile (fun x => isPyWs x)).reverse.dropWhile
          (fun x => isPyWs x)) from hdm _]

theorem splitWs_all_ws : ∀ l : List Char, (∀ c ∈ l, isPyWs c = true) →
    pySplitWsAux [] l = []
  | [], _ => rfl
  | c :: r, h => by
    rw [show pySplitWsAux [] (c :: r) =
        (if isPyWs c then pySplitWsAux [] r else pySplitWsAux [c] r) from by
      simp [pySplitWsAux], if_pos (h c (by simp))]
    exact splitWs_all_ws r (fun x hx => h x (List.mem_cons_of_mem c hx))

theorem splitWs_aux_ne_nil : ∀ (r cur : List Char), cur ≠ [] →
    pySplitWsAux cur r ≠ []
  | [], cur, h => by simp [pySplitWsAux, h]
  | c :: r, cur, h => by
    by_cases hc : isPyWs c = true
    · rw [show pySplitWsAux cur (c :: r) =
          String.mk cur.reverse :: pySplitWsAux [] r from by
        simp [pySplitWsAux, hc, h]]
      simp
    · rw [show pySplitWsAux cur (c :: r) = pySplitWsAux (c :: cur) r from by
        simp [pySplitWsAux, hc]]
      exact splitWs_aux_ne_nil r (c :: cur) (by simp)

theorem splitWs_nil_all_ws : ∀ l : List Char, pySplitWsAux [] l = [] →
    ∀ c ∈ l, isPyWs c = true
  | [], _, c, hc => by simp at hc
  | b :: r, h, c, hc => by
    by_cases hb : isPyWs b = true
    · rw [show pySplitWsAux [] (b :: r) = pySplitWsAux [] r from by
        simp [pySplitWsAux, hb]] at h
      rcases List.mem_cons.mp hc with h2 | h2
      · exact h2 ▸ hb
      · exact splitWs_nil_all_ws r h c h2
    · rw [show pySplitWsAux [] (b :: r) = pySplitWsAux [b] r from by
        simp [pySplitWsAux, hb]] at h
      exact absurd h (splitWs_aux_ne_nil r [b] (by simp))

theorem splitWs_dropWhile (l : List Char) :
    pySplitWsAux [] (l.dropWhile (fun x => isPyWs x)) = pySplitWsAux [] l := by
  induction l with
  | nil => rfl
  | cons c r ih =>
    by_cases hc : isPyWs c = true
    · rw [List.dropWhile_cons_of_pos hc, ih,
        show pySplitWsAux [] (c :: r) = pySplitWsAux [] r from by
          simp [pySplitWsAux, hc]]
    · rw [List.dropWhile_cons_of_neg (by simp [hc] : ¬((fun x => isPyWs x) c = true))]

theorem splitWs_trailing_ws : ∀ (m : List Char) (cur b : List Char),
    (∀ c ∈ b, isPyWs c = true) →
    pySplitWsAux cur (m ++ b) = pySplitWsAux cur m
  | [], cur, b, hb => by
    rw [List.nil_append]
    induction b generalizing cur with
    | nil => rfl
    | cons c b2 ih =>
      have hc : isPyWs c = true := hb c (by simp)
      by_cases hcur : cur.isEmpty = true
      · rw [show pySplitWsAux cur (c :: b2) = pySplitWsAux [] b2 from by
          simp [pySplitWsAux, hc, hcur],
          show pySplitWsAux cur ([] : List Char) = [] from by
            simp [pySplitWsAux, hcur]]
        have h3 := ih ([] : List Char) (fun x hx => hb x (List.mem_cons_of_mem c hx))
        rw [show pySplitWsAux ([] : List Char) ([] : List Char) = [] from rfl] at h3
        exact h3
      · rw [show pySplitWsAux cur (c :: b2) =
            String.mk cur.reverse :: pySplitWsAux [] b2 from by
          simp [pySplitWsAux, hc, hcur],
          show pySplitWsAux cur ([] : List Char) = [String.mk cur.reverse] from by
            simp [pySplitWsAux, hcur]]
        have h3 := ih ([] : List Char) (fun x hx => hb x (List.mem_cons_of_mem c hx))
        rw [show pySplitWsAux ([] : List Char) ([] : List Char) = [] from rfl] at h3
        rw [h3]
  | c :: m, cur, b, hb => by
    rw [List.cons_append]
    by_cases hc : isPyWs c = true
    · by_cases hcur : cur.isEmpty = true
      · rw [show pySplitWsAux cur (c :: (m ++ b)) = pySplitWsAux [] (m ++ b) from by
          simp [pySplitWsAux, hc, hcur],
          show pySplitWsAux cur (c :: m) = pySplitWsAux [] m from by
            simp [pySplitWsAux, hc, hcur]]
        exact splitWs_trailing_ws m [] b hb
      · rw [show pySplitWsAux cur (c :: (m ++ b)) =
            String.mk cur.reverse :: pySplitWsAux [] (m ++ b) from by
          simp [pySplitWsAux, hc, hcur],
          show pySplitWsAux cur (c :: m) =
            String.mk cur.reverse :: pySplitWsAux [] m from by
          simp [pySplitWsAux, hc, hcur]]
        rw [splitWs_trailing_ws m [] b hb]
    · rw [show pySplitWsAux cur (c :: (m ++ b)) = pySplitWsAux (c :: cur) (m ++ b)
          from by simp [pySplitWsAux, hc],
        show pySplitWsAux cur (c :: m) = pySplitWsAux (c :: cur) m from by
          simp [pySplitWsAux, hc]]
      exact splitWs_trailing_ws m (c :: cur) b hb

theorem splitWs_strip (l : List Char) :
    pySplitWsAux [] (pyStripL l) = pySplitWsAux [] l := by
  have hB : ∀ c ∈ (l.reverse.takeWhile (fun x => isPyWs x)).reverse,
      isPyWs c = true := by
    intro c hc
    exact List.mem_takeWhile_imp (List.mem_reverse.mp hc)
  have hdec : trimRightWs l ++ (l.reverse.takeWhile (fun x => isPyWs x)).reverse
      = l := by
    unfold trimRightWs trimLeftWs
    calc (l.reverse.dropWhile (fun x => isPyWs x)).reverse ++
          (l.reverse.takeWhile (fun x => isPyWs x)).reverse
        = (l.reverse.takeWhile (fun x => isPyWs x) ++
            l.reverse.dropWhile (fun x => isPyWs x)).reverse := by
          rw [List.reverse_append]
      _ = l.reverse.reverse := by rw [List.takeWhile_append_dropWhile]
      _ = l := List.reverse_reverse l
  show pySplitWsAux [] (trimLeftWs (trimRightWs l)) = pySplitWsAux [] l
  rw [show trimLeftWs (trimRightWs l) =
      (trimRightWs l).dropWhile (fun x => isPyWs x) from rfl,
    splitWs_dropWhile (trimRightWs l)]
  conv_rhs => rw [← hdec]
  rw [splitWs_trailing_ws (trimRightWs l) [] _ hB]

theorem data_append (s t : String) : (s ++ t).data = s.data ++ t.data := rfl

theorem splitWs_single_word : ∀ (r cur : List Char), cur ≠ [] →
    ∀ w : String, pySplitWsAux cur r = [w] →
    w.data = cur.reverse ++ r.takeWhile (fun x => !isPyWs x) ∧
    (∀ c ∈ r.dropWhile (fun x => !isPyWs x), isPyWs c = true)
  | [], cur, hcur, w, h => by
    rw [show pySplitWsAux cur [] = [String.mk cur.reverse] from by
      simp [pySplitWsAux, List.isEmpty_iff, hcur]] at h
    have hw : w = String.mk cur.reverse := by
      have := List.cons.injEq (String.mk cur.reverse) [] w [] ▸ h
      simpa using h.symm
    refine ⟨by rw [hw]; simp, by simp⟩
  | c :: r, cur, hcur, w, h => by
    by_cases hc : isPyWs c = true
    · rw [show pySplitWsAux cur (c :: r) =
          String.mk cur.reverse :: pySplitWsAux [] r from by
        simp [pySplitWsAux, hc, List.isEmpty_iff, hcur]] at h
      have h2 : String.mk cur.reverse = w ∧ pySplitWsAux [] r = [] := by
        have := h
        rw [List.cons.injEq] at this
        exact ⟨this.1, this.2⟩
      have hall := splitWs_nil_all_ws r h2.2
      constructor
      · rw [← h2.1]
        rw [show (c :: r).takeWhile (fun x => !isPyWs x) = [] from by
          simp [List.takeWhile_cons, hc]]
        simp
      · rw [show (c :: r).dropWhile (fun x => !isPyWs x) = c :: r from by
          simp [List.dropWhile_cons, hc]]
        intro x hx
        rcases List.mem_cons.mp hx with h3 | h3
        · exact h3 ▸ hc
        · exact hall x h3
    · have hcf : isPyWs c = false := by simpa using hc
      rw [show pySplitWsAux cur (c :: r) = pySplitWsAux (c :: cur) r from by
        simp [pySplitWsAux, hcf]] at h
      have ih := splitWs_single_word r (c :: cur) (by simp) w h
      constructor
      · rw [ih.1]
        rw [show (c :: r).takeWhile (fun x => !isPyWs x) =
            c :: r.takeWhile (fun x => !isPyWs x) from by
          simp [List.takeWhile_cons, hcf]]
        simp
      · rw [show (c :: r).dropWhile (fun x => !isPyWs x) =
            r.dropWhile (fun x => !isPyWs x) from by
          simp [List.dropWhile_cons, hcf]]
        exact ih.2

theorem splitWs_single_strip : ∀ (l : List Char) (w : String),
    pySplitWsAux [] l = [w] → pyStripL l = w.data
  | [], w, h => by simp [pySplitWsAux] at h
  | c :: r, w, h => by
    by_cases hc : isPyWs c = true
    · rw [show pySplitWsAux [] (c :: r) = pySplitWsAux [] r from by
        simp [pySplitWsAux, hc]] at h
      rw [strip_cons_ws c r hc]
      exact splitWs_single_strip r w h
    · have hcf : isPyWs c = false := by simpa using hc
      rw [show pySplitWsAux [] (c :: r) = pySplitWsAux [c] r from by
        simp [pySplitWsAux, hcf]] at h
      have h2 := splitWs_single_word r [c] (by simp) w h
      have hdec : c :: r = (c :: r.takeWhile (fun x => !isPyWs x)) ++
          r.dropWhile (fun x => !isPyWs x) := by
        rw [List.cons_append, List.takeWhile_append_dropWhile]
      rw [hdec, strip_append_ws_right _ _ h2.2, strip_no_ws, h2.1,
        List.reverse_singleton, List.singleton_append]
      intro x hx
      rcases List.mem_cons.mp hx with h3 | h3
      · exact h3 ▸ hcf
      · have := List.mem_takeWhile_imp h3
        simpa using this

theorem splitWs_word_ne_empty : ∀ (l cur : List Char) (w : String),
    w ∈ pySplitWsAux cur l → w ≠ ""
  | [], cur, w, h => by
    by_cases hcur : cur.isEmpty = true
    · rw [show pySplitWsAux cur [] = [] from by simp [pySplitWsAux, hcur]] at h
      simp at h
    · rw [show pySplitWsAux cur [] = [String.mk cur.reverse] from by
        simp [pySplitWsAux, hcur]] at h
      have hw : w = String.mk cur.reverse := by simpa using h
      rw [hw]
      intro hEq
      have : cur.reverse = ([] : List Char) := by
        have := congrArg String.data hEq
        simpa using this
      rw [List.isEmpty_iff] at hcur
      exact hcur (by simpa using congrArg List.reverse this)
  | c :: r, cur, w, h => by
    by_cases hc : isPyWs c = true
    · by_cases hcur : cur.isEmpty = true
      · rw [show pySplitWsAux cur (c :: r) = pySplitWsAux [] r from by
          simp [pySplitWsAux, hc, hcur]] at h
        exact splitWs_word_ne_empty r [] w h
      · rw [show pySplitWsAux cur (c :: r) =
            String.mk cur.reverse :: pySplitWsAux [] r from by
          simp [pySplitWsAux, hc, hcur]] at h
        rcases List.mem_cons.mp h with h2 | h2
        · rw [h2]
          intro hEq
          have : cur.reverse = ([] : List Char) := by
            have := congrArg String.data hEq
            simpa using this
          rw [List.isEmpty_iff] at hcur
          exact hcur (by simpa using congrArg List.reverse this)
        · exact splitWs_word_ne_empty r [] w h2
    · rw [show pySplitWsAux cur (c :: r) = pySplitWsAux (c :: cur) r from by
        simp [pySplitWsAux, by simpa using hc]] at h
      exact splitWs_word_ne_empty r (c :: cur) w h

theorem joinSep_space_single (x : String) (hx : (' ' : Char) ∉ x.data)
    (hne : x ≠ "") :
    ∀ L : List String, joinSep " " L = x → L = [x]
  | [], h => absurd h (by simpa using hne.symm)
  | [a], h => by rw [show joinSep " " [a] = a from rfl] at h; rw [h]
  | a :: b :: L, h => by
    exfalso
    apply hx
    rw [← h, show joinSep " " (a :: b :: L) = a ++ " " ++ joinSep " " (b :: L)
      from rfl, data_append, data_append]
    simp

theorem joinSep_space_empty :
    ∀ L : List String, (∀ w ∈ L, w ≠ "") → joinSep " " L = "" → L = []
  | [], _, _ => rfl
  | [a], hw, h => absurd (by rw [show joinSep " " [a] = a from rfl] at h; exact h)
      (hw a (by simp))
  | a :: b :: L, _, h => by
    exfalso
    have : (' ' : Char) ∈ ("" : String).data := by
      rw [← h, show joinSep " " (a :: b :: L) = a ++ " " ++ joinSep " " (b :: L)
        from rfl, data_append, data_append]
      simp
    simp at this

/-- The claim's name normalization: trim, lowercase, collapse internal
whitespace — realized as Python's `" ".join(s.lower().split())`, which
performs all three. -/
def normName (s : String) : String := joinSep " " (pySplitWs (pyLower s))

theorem split_lower_strip (s : String) :
    pySplitWs (pyLower (pyStripS s)) = pySplitWs (pyLower s) := by
  unfold pySplitWs
  rw [show (pyLower (pyStripS s)).data = pyLowerL (pyStripL s.data) from rfl,
    ← lower_strip_comm]
  show pySplitWsAux [] (pyStripL (pyLowerL s.data)) =
    pySplitWsAux [] (pyLowerL s.data)
  exact splitWs_strip (pyLowerL s.data)

/-- strip-empty means everything was whitespace. -/
theorem strip_empty_all_ws (l : List Char) (h : pyStripL l = []) :
    ∀ c ∈ l, isPyWs c = true := by
  have hD : ∀ c ∈ l.reverse.dropWhile (fun x => isPyWs x), isPyWs c = true := by
    have h2 : ∀ c ∈ trimRightWs l, isPyWs c = true := by
      intro c hc
      exact List.dropWhile_eq_nil_iff.mp
        (show (trimRightWs l).dropWhile (fun x => isPyWs x) = [] from h) c hc
    intro c hc
    exact h2 c (List.mem_reverse.mpr hc)
  intro c hc
  have hrev : c ∈ l.reverse := List.mem_reverse.mpr hc
  rw [← List.takeWhile_append_dropWhile (p := fun x => isPyWs x)
    (l := l.reverse)] at hrev
  rcases List.mem_append.mp hrev with h3 | h3
  · exact List.mem_takeWhile_imp h3
  · exact hD c h3

theorem all_ws_strip_empty (l : List Char) (h : ∀ c ∈ l, isPyWs c = true) :
    pyStripL l = [] := by
  unfold pyStripL trimRightWs trimLeftWs
  rw [List.dropWhile_eq_nil_iff.mpr (fun x hx => h x (List.mem_reverse.mp hx))]
  rfl

/-- `anonymize_name` factors through `normName`: the output depends on the
input only through the claim-side trim/lowercase/collapse normalization. -/
theorem anonymize_name_factor (s salt : String) :
    anonymize_name (.str s) salt =
      if normName s = "" ∨ normName s = "nan" ∨ normName s = "none" then ""
      else "NAME_" ++ String.mk
        ((Sha256.hexdigest (utf8Bytes (salt ++ ":" ++ normName s))).take 8) := by
  have hstr : normalize_text (.str s) =
      if (pyStripS s == "" || pyLower (pyStripS s) == "nan" ||
         pyLower (pyStripS s) == "none") then "" else pyStripS s := rfl
  by_cases hC : (pyStripS s == "" || pyLower (pyStripS s) == "nan" ||
      pyLower (pyStripS s) == "none") = true
  · have hn : normalize_text (.str s) = "" := by rw [hstr, if_pos hC]
    have hL : anonymize_name (.str s) salt = "" := by
      unfold anonymize_name
      rw [hn]
      rfl
    rw [hL]
    have hcond : normName s = "" ∨ normName s = "nan" ∨ normName s = "none" := by
      rw [Bool.or_eq_true, Bool.or_eq_true] at hC
      unfold normName
      rw [← split_lower_strip s]
      rcases hC with (h | h) | h
      · left
        rw [eq_of_beq h]
        rfl
      · right; left
        rw [eq_of_beq h]
        rfl
      · right; right
        rw [eq_of_beq h]
        rfl
    rw [if_pos hcond]
  · simp only [Bool.or_eq_true, not_or, beq_iff_eq] at hC
    obtain ⟨⟨ht, hnan⟩, hnone⟩ := hC
    have hn : normalize_text (.str s) = pyStripS s := by
      rw [hstr, if_neg (by
        simp only [Bool.or_eq_true, not_or, beq_iff_eq]
        exact ⟨⟨ht, hnan⟩, hnone⟩)]
    have hne : (normalize_text (.str s) == "") = false := by
      rw [hn]
      exact beq_eq_false_iff_ne.mpr ht
    have hLHS : anonymize_name (.str s) salt = "NAME_" ++ String.mk
        ((Sha256.hexdigest (utf8Bytes (salt ++ ":" ++
          joinSep " " (pySplitWs (pyLower (normalize_text (.str s))))))).take 8) := by
      show (if (normalize_text (.str s) == "") = true then ""
        else "NAME_" ++ String.mk ((Sha256.hexdigest (utf8Bytes (salt ++ ":" ++
          joinSep " " (pySplitWs (pyLower (normalize_text (.str s))))))).take 8)) = _
      rw [hne, if_neg (by simp)]
    have hnorm : joinSep " " (pySplitWs (pyLower (normalize_text (.str s)))) =
        normName s := by
      rw [hn]
      unfold normName
      rw [split_lower_strip s]
    have hcond : ¬(normName s = "" ∨ normName s = "nan" ∨ normName s = "none") := by
      rintro (h | h | h)
      · -- normName s = "" would force an all-whitespace input
        have hL0 := joinSep_space_empty (pySplitWs (pyLower s))
          (fun w hw => splitWs_word_ne_empty (pyLower s).data [] w hw) h
        have hallL : ∀ c ∈ (pyLower s).data, isPyWs c = true :=
          splitWs_nil_all_ws (pyLower s).data hL0
        have halls : ∀ c ∈ s.data, isPyWs c = true := by
          intro c hc
          have h2 := hallL (pyLowerChar c)
            (List.mem_map_of_mem pyLowerChar hc)
          rwa [ws_lower] at h2
        have := all_ws_strip_empty s.data halls
        exact ht (congrArg String.mk this)
      · have hL1 := joinSep_space_single "nan" (by decide) (by decide)
          (pySplitWs (pyLower s)) h
        have h2 := splitWs_single_strip (pyLower s).data "nan" hL1
        rw [show (pyLower s).data = pyLowerL s.data from rfl,
          lower_strip_comm] at h2
        exact hnan (congrArg String.mk h2)
      · have hL1 := joinSep_space_single "none" (by decide) (by decide)
          (pySplitWs (pyLower s)) h
        have h2 := splitWs_single_strip (pyLower s).data "none" hL1
        rw [show (pyLower s).data = pyLowerL s.data from rfl,
          lower_strip_comm] at h2
        exact hnone (congrArg String.mk h2)
    rw [hLHS, hnorm, if_neg hcond]

theorem nibbleChar_mem (n : Nat) : Sha256.nibbleChar n ∈ Sha256.hexCs := by
  unfold Sha256.nibbleChar
  have h : n % 16 = 0 ∨ n % 16 = 1 ∨ n % 16 = 2 ∨ n % 16 = 3 ∨ n % 16 = 4 ∨
      n % 16 = 5 ∨ n % 16 = 6 ∨ n % 16 = 7 ∨ n % 16 = 8 ∨ n % 16 = 9 ∨
      n % 16 = 10 ∨ n % 16 = 11 ∨ n % 16 = 12 ∨ n % 16 = 13 ∨ n % 16 = 14 ∨
      n % 16 = 15 := by omega
  rcases h with h|h|h|h|h|h|h|h|h|h|h|h|h|h|h|h <;> rw [h] <;> decide

theorem hexWord_mem (x : Nat) : ∀ c ∈ Sha256.hexWord x, c ∈ Sha256.hexCs := by
  intro c hc
  unfold Sha256.hexWord at hc
  simp only [List.mem_cons, List.not_mem_nil, or_false] at hc
  rcases hc with h|h|h|h|h|h|h|h <;> exact h ▸ nibbleChar_mem _

theorem hexdigest_mem (m : List Nat) :
    ∀ c ∈ Sha256.hexdigest m, c ∈ Sha256.hexCs := by
  intro c hc
  unfold Sha256.hexdigest at hc
  simp only [List.mem_append] at hc
  rcases hc with ((((((h|h)|h)|h)|h)|h)|h)|h <;> exact hexWord_mem _ c h

theorem hexWord_length (x : Nat) : (Sha256.hexWord x).length = 8 := rfl

theorem hexdigest_length (m : List Nat) : (Sha256.hexdigest m).length = 64 := by
  unfold Sha256.hexdigest
  simp [List.length_append, hexWord_length]

/-- Claim C6: for a fixed salt, `anonymize_name` is deterministic through the
trim/lowercase/whitespace-collapse normalization — equal normalized names give
identical pseudonyms; empty or absent input always gives `""`; non-empty
normalized input always gives `NAME_` followed by exactly 8 hex digits. -/
theorem claim_C6 :
    (∀ n1 n2 salt : String, normName n1 = normName n2 →
      anonymize_name (.str n1) salt = anonymize_name (.str n2) salt) ∧
    (∀ (v : PyValue) (salt : String), normalize_text v = "" →
      anonymize_name v salt = "") ∧
    (∀ (v : PyValue) (salt : String), normalize_text v ≠ "" →
      ∃ hx : String, anonymize_name v salt = "NAME_" ++ hx ∧
        hx.data.length = 8 ∧ ∀ c ∈ hx.data, c ∈ Sha256.hexCs) := by
  refine ⟨?_, ?_, ?_⟩
  · intro n1 n2 salt h
    rw [anonymize_name_factor n1 salt, anonymize_name_factor n2 salt, h]
  · intro v salt h
    unfold anonymize_name
    rw [h]
    rfl
  · intro v salt h
    have hne : (normalize_text v == "") = false := beq_eq_false_iff_ne.mpr h
    refine ⟨String.mk ((Sha256.hexdigest (utf8Bytes (salt ++ ":" ++
      joinSep " " (pySplitWs (pyLower (normalize_text v)))))).take 8), ?_, ?_, ?_⟩
    · show (if (normalize_text v == "") = true then ""
        else "NAME_" ++ String.mk ((Sha256.hexdigest (utf8Bytes (salt ++ ":" ++
          joinSep " " (pySplitWs (pyLower (normalize_text v)))))).take 8)) = _
      rw [hne, if_neg (by simp)]
    · rw [show (String.mk ((Sha256.hexdigest (utf8Bytes (salt ++ ":" ++
          joinSep " " (pySplitWs (pyLower (normalize_text v)))))).take 8)).data =
        (Sha256.hexdigest (utf8Bytes (salt ++ ":" ++
          joinSep " " (pySplitWs (pyLower (normalize_text v)))))).take 8 from rfl,
        List.length_take, hexdigest_length]
      decide
    · intro c hc
      have h2 := (List.take_sublist 8 _).mem hc
      exact hexdigest_mem _ c h2

/-- Claim C6, witness: the determinism, emptiness and shape statements applied
at concrete names through the theorem. -/
theorem claim_C6_witness :
    normName "  John   DOE " = normName "john doe" ∧
    anonymize_name (.str "  John   DOE ") = anonymize_name (.str "john doe") ∧
    anonymize_name (.str "   ") = "" ∧
    (∃ hx : String, anonymize_name (.str "Rocio") = "NAME_" ++ hx ∧
      hx.data.length = 8 ∧ ∀ c ∈ hx.data, c ∈ Sha256.hexCs) :=
  ⟨by decide, claim_C6.1 "  John   DOE " "john doe" "gf_v1" (by decide),
   claim_C6.2.1 (.str "   ") "gf_v1" (by decide),
   claim_C6.2.2 (.str "Rocio") "gf_v1" (by decide)⟩

/-- Claim C10: the submission-speed value never influences the scorer's
output — any two rows that agree on every field except `submission_speed_ms`
get the same `(label, score, reasons)` triple from `heuristic_label` — and
parsing an unparseable speed value yields no numeric value (no exception):
`parse_submission_speed` returns `none` on a digit-free string and on the
empty string. -/
theorem claim_C10 :
    (∀ r1 r2 : Row, r1.text = r2.text → r1.message_raw = r2.message_raw →
      r1.message_sanitized = r2.message_sanitized →
      r1.user_agent = r2.user_agent →
      heuristic_label r1 = heuristic_label r2) ∧
    parse_submission_speed "rapidez: sin dato!" = Option.none ∧
    parse_submission_speed "" = Option.none := by
  refine ⟨?_, rfl, rfl⟩
  intro r1 r2 h1 h2 h3 h4
  simp only [heuristic_label]
  rw [h1, h2, h3, h4]

/-- Witness for C10: two concrete rows differing only in the speed field
(one numeric, one unparseable) are scored identically. -/
theorem claim_C10_witness :
    heuristic_label ⟨"gana dinero", "", "", "", "120"⟩ =
      heuristic_label ⟨"gana dinero", "", "", "", "!!sin-dato!!"⟩ :=
  claim_C10.1 _ _ rfl rfl rfl rfl

/-! ### Claim C9: `anonymize_origin_url` -/

theorem contains_false_of_not_mem (l : List Char) (c : Char) (h : c ∉ l) :
    l.contains c = false := by
  cases hc : l.contains c with
  | false => rfl
  | true => exact absurd (by simpa using hc) h

theorem mem_preprocessUrl (t : String) (c : Char)
    (h : c ∈ UrlParse.preprocessUrl t) : c ∈ t.data := by
  unfold UrlParse.preprocessUrl at h
  exact List.dropWhile_subset _ (List.mem_of_mem_filter h)

theorem mem_splitSchemeP (u : List Char) (c : Char)
    (h : c ∈ (UrlParse.splitSchemeP u).2) : c ∈ u := by
  unfold UrlParse.splitSchemeP at h
  split at h
  · split at h
    · exact List.mem_of_mem_drop h
    · exact h
  · exact h

theorem mem_splitNetlocP (u : List Char) (c : Char)
    (h : c ∈ (UrlParse.splitNetlocP u).1) : c ∈ u := by
  unfold UrlParse.splitNetlocP at h
  split at h
  · have h2 : c ∈ (u.drop 2).takeWhile
      (fun c => !(c == '/' || c == '?' || c == '#')) := h
    exact List.mem_of_mem_drop (List.takeWhile_subset _ h2)
  · exact absurd h (List.not_mem_nil c)

/-- When the input holds no square bracket, `urlsplit` cannot take either
`ValueError` branch. -/
theorem urlsplit_ok_of_no_brackets (t : String)
    (h1 : '[' ∉ t.data) (h2 : ']' ∉ t.data) :
    ∃ sp, UrlParse.urlsplit t = Except.ok sp := by
  have hmem : ∀ c ∈ (UrlParse.splitNetlocP
      (UrlParse.splitSchemeP (UrlParse.preprocessUrl t)).2).1, c ∈ t.data :=
    fun c hc =>
      mem_preprocessUrl t c (mem_splitSchemeP _ c (mem_splitNetlocP _ c hc))
  have hL : ((UrlParse.splitNetlocP
      (UrlParse.splitSchemeP (UrlParse.preprocessUrl t)).2).1).contains '['
      = false :=
    contains_false_of_not_mem _ _ (fun hm => h1 (hmem _ hm))
  have hR : ((UrlParse.splitNetlocP
      (UrlParse.splitSchemeP (UrlParse.preprocessUrl t)).2).1).contains ']'
      = false :=
    contains_false_of_not_mem _ _ (fun hm => h2 (hmem _ hm))
  cases hsp : UrlParse.urlsplit t with
  | ok sp => exact ⟨sp, rfl⟩
  | error e =>
    exfalso
    simp only [UrlParse.urlsplit] at hsp
    rw [hL, hR] at hsp
    simp at hsp

/-- Claim C9, counterexample: `anonymize_origin_url` CAN raise.  On the
input `"http://["` the underlying `urlparse` raises
`ValueError("Invalid IPv6 URL")` (modelled as `Except.error`), which the
source does not catch, so no string is returned at all. -/
theorem claim_C9_counterexample :
    anonymize_origin_url (.str "http://[") =
      Except.error "Invalid IPv6 URL" := rfl

/-- Claim C9, amended: for every input whose normalization holds no square
bracket, `anonymize_origin_url` returns normally; whenever the parse
succeeds the result is the literal `[DOMAIN]` if the parse yields no
authority component, and otherwise the URL rebuilt with the authority
replaced by `[DOMAIN]` (scheme, path, params, query, fragment unchanged);
in particular the two quoted examples hold. -/
theorem claim_C9_amended :
    (∀ v : PyValue,
      '[' ∉ (normalize_text v).data → ']' ∉ (normalize_text v).data →
      ∃ r : String, anonymize_origin_url v = Except.ok r) ∧
    (∀ (v : PyValue) (pr : UrlParse.ParseResult),
      UrlParse.urlparse (normalize_text v) = Except.ok pr →
      anonymize_origin_url v =
        Except.ok (if pr.netloc = "" then "[DOMAIN]"
          else UrlParse.urlunparse { pr with netloc := "[DOMAIN]" })) ∧
    anonymize_origin_url (.str "https://www.example.es/contacto/") =
      Except.ok "https://[DOMAIN]/contacto/" ∧
    anonymize_origin_url (.str "example.es/contacto/") =
      Except.ok "[DOMAIN]" := by
  have hstruct : ∀ (v : PyValue) (pr : UrlParse.ParseResult),
      UrlParse.urlparse (normalize_text v) = Except.ok pr →
      anonymize_origin_url v =
        Except.ok (if pr.netloc = "" then "[DOMAIN]"
          else UrlParse.urlunparse { pr with netloc := "[DOMAIN]" }) := by
    intro v pr h
    simp only [anonymize_origin_url]
    rw [h]
    by_cases hn : pr.netloc = ""
    · simp [hn]
    · simp [hn]
  refine ⟨?_, hstruct, rfl, rfl⟩
  intro v hv1 hv2
  obtain ⟨sp, hsp⟩ := urlsplit_ok_of_no_brackets (normalize_text v) hv1 hv2
  have hp : ∃ pr, UrlParse.urlparse (normalize_text v) = Except.ok pr := by
    unfold UrlParse.urlparse
    rw [hsp]
    exact ⟨_, rfl⟩
  obtain ⟨pr, hpr⟩ := hp
  exact ⟨_, hstruct v pr hpr⟩

/-- Witness for C9: a concrete bracket-free URL returns normally, and a
concrete successful parse is rebuilt exactly as described. -/
theorem claim_C9_witness :
    (∃ r : String,
      anonymize_origin_url (.str "https://ok.example/a?q#f") =
        Except.ok r) ∧
    anonymize_origin_url (.str "https://www.example.es/contacto/") =
      Except.ok (if ("www.example.es" : String) = "" then "[DOMAIN]"
        else UrlParse.urlunparse
          ⟨"https", "[DOMAIN]", "/contacto/", "", "", ""⟩) :=
  ⟨claim_C9_amended.1 (.str "https://ok.example/a?q#f")
      (by decide) (by decide),
   claim_C9_amended.2.1 (.str "https://www.example.es/contacto/")
      ⟨"https", "www.example.es", "/contacto/", "", "", ""⟩ rfl⟩

/-! ### Claim C1: the label decision of `heuristic_label` -/

/-- Spec-side "spam signal": a spam-keyword hit, or a URL count of at least 2
(the condition that puts a `many_urls` reason in the list). -/
def hasSpamSignalSpec (row : Row) : Bool :=
  !(contains_any row.text SPAM_KEYWORDS).isEmpty ||
  decide (2 ≤ max (url_count_raw row.message_raw)
    (url_count_token row.message_sanitized))

/-- Spec-side "ad signal": an ad-keyword hit. -/
def hasAdSignalSpec (row : Row) : Bool :=
  !(contains_any row.text AD_KEYWORDS).isEmpty

/-- `s.endswith(t)` as a Boolean over reversed character lists. -/
def endsWithB (s t : String) : Bool := leadsB t.data.reverse s.data.reverse

/-! `startswith` facts for each reason shape against each of the three
scanned prefixes (`spam_keywords`, `many_urls`, `ad_keywords`). -/

theorem l_sk_many (t : String) :
    leadsB ['s', 'p', 'a', 'm', '_', 'k', 'e', 'y', 'w', 'o', 'r', 'd', 's']
      ("many_urls(" ++ t ++ ")").data = false := rfl

theorem l_mu_many (t : String) :
    leadsB ['m', 'a', 'n', 'y', '_', 'u', 'r', 'l', 's']
      ("many_urls(" ++ t ++ ")").data = true := rfl

theorem l_ak_many (t : String) :
    leadsB ['a', 'd', '_', 'k', 'e', 'y', 'w', 'o', 'r', 'd', 's']
      ("many_urls(" ++ t ++ ")").data = false := rfl

theorem l_sk_one :
    leadsB ['s', 'p', 'a', 'm', '_', 'k', 'e', 'y', 'w', 'o', 'r', 'd', 's']
      ['o', 'n', 'e', '_', 'u', 'r', 'l'] = false := rfl

theorem l_mu_one :
    leadsB ['m', 'a', 'n', 'y', '_', 'u', 'r', 'l', 's']
      ['o', 'n', 'e', '_', 'u', 'r', 'l'] = false := rfl

theorem l_ak_one :
    leadsB ['a', 'd', '_', 'k', 'e', 'y', 'w', 'o', 'r', 'd', 's']
      ['o', 'n', 'e', '_', 'u', 'r', 'l'] = false := rfl

theorem l_sk_spam (t : String) :
    leadsB ['s', 'p', 'a', 'm', '_', 'k', 'e', 'y', 'w', 'o', 'r', 'd', 's']
      ("spam_keywords(" ++ t ++ ")").data = true := rfl

theorem l_mu_spam (t : String) :
    leadsB ['m', 'a', 'n', 'y', '_', 'u', 'r', 'l', 's']
      ("spam_keywords(" ++ t ++ ")").data = false := rfl

theorem l_ak_spam (t : String) :
    leadsB ['a', 'd', '_', 'k', 'e', 'y', 'w', 'o', 'r', 'd', 's']
      ("spam_keywords(" ++ t ++ ")").data = false := rfl

theorem l_sk_ad (t : String) :
    leadsB ['s', 'p', 'a', 'm', '_', 'k', 'e', 'y', 'w', 'o', 'r', 'd', 's']
      ("ad_keywords(" ++ t ++ ")").data = false := rfl

theorem l_mu_ad (t : String) :
    leadsB ['m', 'a', 'n', 'y', '_', 'u', 'r', 'l', 's']
      ("ad_keywords(" ++ t ++ ")").data = false := rfl

theorem l_ak_ad (t : String) :
    leadsB ['a', 'd', '_', 'k', 'e', 'y', 'w', 'o', 'r', 'd', 's']
      ("ad_keywords(" ++ t ++ ")").data = true := rfl

theorem l_sk_ua :
    leadsB ['s', 'p', 'a', 'm', '_', 'k', 'e', 'y', 'w', 'o', 'r', 'd', 's']
      ['s', 'u', 's', 'p', 'i', 'c', 'i', 'o', 'u', 's', '_', 'u', 's', 'e', 'r', '_', 'a', 'g', 'e', 'n', 't'] = false := rfl

theorem l_mu_ua :
    leadsB ['m', 'a', 'n', 'y', '_', 'u', 'r', 'l', 's']
      ['s', 'u', 's', 'p', 'i', 'c', 'i', 'o', 'u', 's', '_', 'u', 's', 'e', 'r', '_', 'a', 'g', 'e', 'n', 't'] = false := rfl

theorem l_ak_ua :
    leadsB ['a', 'd', '_', 'k', 'e', 'y', 'w', 'o', 'r', 'd', 's']
      ['s', 'u', 's', 'p', 'i', 'c', 'i', 'o', 'u', 's', '_', 'u', 's', 'e', 'r', '_', 'a', 'g', 'e', 'n', 't'] = false := rfl

theorem leadsB_refl : ∀ l : List Char, leadsB l l = true
  | [] => rfl
  | c :: r => by
    show (c == c && leadsB r r) = true
    rw [beq_self_eq_true, leadsB_refl r]
    rfl

theorem leadsB_append_r : ∀ (p s r : List Char),
    leadsB p s = true → leadsB p (s ++ r) = true
  | [], _, _, _ => rfl
  | _ :: _, [], _, h => nomatch h
  | a :: p, b :: s, r, h => by
    have h3 : (a == b && leadsB p s) = true := h
    show (a == b && leadsB p (s ++ r)) = true
    cases hab : a == b with
    | false => rw [hab] at h3; simp at h3
    | true =>
      rw [hab] at h3
      simp only [Bool.true_and] at h3
      rw [leadsB_append_r p s r h3]
      rfl

theorem endsWithB_self (t : String) : endsWithB t t = true :=
  leadsB_refl t.data.reverse

theorem endsWithB_append_of (x y t : String) (h : endsWithB y t = true) :
    endsWithB (x ++ y) t = true := by
  unfold endsWithB at h ⊢
  rw [data_append, List.reverse_append]
  exact leadsB_append_r _ _ _ h

theorem rev_head_append (x y : String) (c : Char)
    (h : y.data.reverse.head? = some c) :
    (x ++ y).data.reverse.head? = some c := by
  rw [data_append, List.reverse_append]
  cases hy : y.data.reverse with
  | nil => rw [hy] at h; exact absurd h (by simp)
  | cons a as =>
    rw [hy] at h
    simpa using h

theorem endsWithB_false_of_head (s t : String) (c d : Char)
    (hs : s.data.reverse.head? = some c) (ht : t.data.reverse.head? = some d)
    (h : (d == c) = false) : endsWithB s t = false := by
  unfold endsWithB
  cases hsr : s.data.reverse with
  | nil => rw [hsr] at hs; exact absurd hs (by simp)
  | cons a as =>
    cases htr : t.data.reverse with
    | nil => rw [htr] at ht; exact absurd ht (by simp)
    | cons b bs =>
      rw [hsr] at hs
      rw [htr] at ht
      have ha : a = c := by simpa using hs
      have hb : b = d := by simpa using ht
      show (b == a && leadsB bs as) = false
      rw [ha, hb, h, Bool.false_and]

theorem tb_rev : ("tie_breaker=spam" : String).data.reverse
    = 'm' :: "aps=rekaerb_eit".data := by decide

theorem ends_join_last : ∀ (l : List String) (t : String),
    l.getLast? = some t → endsWithB (joinSep ";" l) t = true
  | [], _, h => nomatch h
  | [x], t, h => by
    have hx : x = t := by simpa using h
    show endsWithB x t = true
    rw [hx]
    exact endsWithB_self t
  | x :: y :: r, t, h => by
    show endsWithB (x ++ ";" ++ joinSep ";" (y :: r)) t = true
    exact endsWithB_append_of _ _ _
      (ends_join_last (y :: r) t (by simpa using h))

theorem join_rev_head (d : Char) : ∀ l : List String,
    (∀ x ∈ l, ∃ c, x.data.reverse.head? = some c ∧ (d == c) = false) →
    l ≠ [] →
    ∃ c, (joinSep ";" l).data.reverse.head? = some c ∧ (d == c) = false
  | [], _, hne => absurd rfl hne
  | [x], h, _ => by
    show ∃ c, x.data.reverse.head? = some c ∧ (d == c) = false
    exact h x (by simp)
  | x :: y :: r, h, _ => by
    obtain ⟨c, hc, hcd⟩ := join_rev_head d (y :: r)
      (fun z hz => h z (List.mem_cons_of_mem x hz)) (by simp)
    refine ⟨c, ?_, hcd⟩
    show ((x ++ ";") ++ joinSep ";" (y :: r)).data.reverse.head? = some c
    exact rev_head_append _ _ _ hc

theorem ends_join_ne (l : List String) (t : String) (d : Char)
    (rest : List Char) (ht : t.data.reverse = d :: rest)
    (h : ∀ x ∈ l, ∃ c, x.data.reverse.head? = some c ∧ (d == c) = false) :
    endsWithB (joinSep ";" l) t = false := by
  cases l with
  | nil =>
    show leadsB t.data.reverse [] = false
    rw [ht]
    rfl
  | cons x xs =>
    obtain ⟨c, hc, hcd⟩ := join_rev_head d (x :: xs) h (by simp)
    exact endsWithB_false_of_head _ _ c d hc (by rw [ht]; rfl) hcd

theorem blk_paren (pre mid : String) :
    ∃ c, ((pre ++ mid ++ ")") : String).data.reverse.head? = some c ∧
      ('m' == c) = false :=
  ⟨')', rev_head_append (pre ++ mid) ")" ')' rfl, by decide⟩

theorem blk_one :
    ∃ c, ("one_url" : String).data.reverse.head? = some c ∧
      ('m' == c) = false :=
  ⟨'l', rfl, by decide⟩

theorem blk_ua :
    ∃ c, ("suspicious_user_agent" : String).data.reverse.head? = some c ∧
      ('m' == c) = false :=
  ⟨'t', rfl, by decide⟩

/-- The label component of `heuristic_label` is exactly the spec's decision
tree over the two signals (with the code's literal `"publicidad"`). -/
theorem c1_label (row : Row) :
    (heuristic_label row).1 =
      (if hasSpamSignalSpec row then "spam"
       else if hasAdSignalSpec row then "publicidad" else "unknown") := by
  simp only [heuristic_label, hasSpamSignalSpec, hasAdSignalSpec]
  by_cases h2 : 2 ≤ max (url_count_raw row.message_raw)
      (url_count_token row.message_sanitized) <;>
  by_cases h1 : (max (url_count_raw row.message_raw)
      (url_count_token row.message_sanitized) == 1) = true <;>
  by_cases hs : (contains_any row.text SPAM_KEYWORDS).isEmpty = true <;>
  by_cases ha : (contains_any row.text AD_KEYWORDS).isEmpty = true <;>
  by_cases hu : (pyLower row.user_agent != "" &&
      UA_TOKENS.any fun t => occursB t.data (pyLower row.user_agent).data)
      = true <;>
  simp only [h2, h1, hs, ha, hu,
    l_sk_many, l_mu_many, l_ak_many, l_sk_one, l_mu_one, l_ak_one,
    l_sk_spam, l_mu_spam, l_ak_spam, l_sk_ad, l_mu_ad, l_ak_ad,
    l_sk_ua, l_mu_ua, l_ak_ua,
    List.any_append, List.any_cons, List.any_nil,
    List.cons_append, List.nil_append, List.append_nil,
    Bool.not_true, Bool.not_false, Bool.true_and, Bool.false_and,
    Bool.and_true, Bool.and_false, Bool.true_or, Bool.false_or,
    Bool.or_true, Bool.or_false, Bool.or_self, Bool.and_self,
    decide_True, decide_False, eq_self_iff_true, Bool.false_eq_true,
    ite_true, ite_false]

/-- The reasons string of `heuristic_label` ends with `tie_breaker=spam`
exactly when both signals are present. -/
theorem c1_tiebreak (row : Row) :
    endsWithB (heuristic_label row).2.2 "tie_breaker=spam" =
      (hasSpamSignalSpec row && hasAdSignalSpec row) := by
  simp only [heuristic_label, hasSpamSignalSpec, hasAdSignalSpec]
  by_cases h2 : 2 ≤ max (url_count_raw row.message_raw)
      (url_count_token row.message_sanitized) <;>
  by_cases h1 : (max (url_count_raw row.message_raw)
      (url_count_token row.message_sanitized) == 1) = true <;>
  by_cases hs : (contains_any row.text SPAM_KEYWORDS).isEmpty = true <;>
  by_cases ha : (contains_any row.text AD_KEYWORDS).isEmpty = true <;>
  by_cases hu : (pyLower row.user_agent != "" &&
      UA_TOKENS.any fun t => occursB t.data (pyLower row.user_agent).data)
      = true <;>
  simp only [h2, h1, hs, ha, hu,
    l_sk_many, l_mu_many, l_ak_many, l_sk_one, l_mu_one, l_ak_one,
    l_sk_spam, l_mu_spam, l_ak_spam, l_sk_ad, l_mu_ad, l_ak_ad,
    l_sk_ua, l_mu_ua, l_ak_ua,
    List.any_append, List.any_cons, List.any_nil,
    List.cons_append, List.nil_append, List.append_nil,
    Bool.not_true, Bool.not_false, Bool.true_and, Bool.false_and,
    Bool.and_true, Bool.and_false, Bool.true_or, Bool.false_or,
    Bool.or_true, Bool.or_false, Bool.or_self, Bool.and_self,
    decide_True, decide_False, eq_self_iff_true, Bool.false_eq_true,
    ite_true, ite_false] <;>
  first
    | rfl
    | exact ends_join_last _ _ rfl
    | (refine ends_join_ne _ _ 'm' _ tb_rev ?_
       intro x hx
       fin_cases hx <;>
         first
           | exact blk_paren _ _
           | exact blk_one
           | exact blk_ua)

/-- Claim C1, counterexample: on a row whose text holds only ad keywords
(`agencia`, `marketing`) the produced label is the code's literal
`"publicidad"`, not the spec's `advertisement`. -/
theorem claim_C1_counterexample :
    (heuristic_label
        ⟨"somos una agencia de marketing digital", "", "", "", ""⟩).1
      = "publicidad" ∧
    ((heuristic_label
        ⟨"somos una agencia de marketing digital", "", "", "", ""⟩).1
      == "advertisement") = false :=
  ⟨rfl, rfl⟩

/-- Claim C1, amended: for every row the label is `spam` when a spam signal
(spam keyword hit or a URL count of at least 2) is present, `publicidad`
(the code's Spanish literal, not `advertisement`) when only an ad signal
(ad keyword hit) is present, `unknown` otherwise; the reasons string ends
with `tie_breaker=spam` exactly when both signals are present; and the
label is never `lead`. -/
theorem claim_C1_amended (row : Row) :
    ((heuristic_label row).1 =
      if hasSpamSignalSpec row then "spam"
      else if hasAdSignalSpec row then "publicidad"
      else "unknown") ∧
    endsWithB (heuristic_label row).2.2 "tie_breaker=spam" =
      (hasSpamSignalSpec row && hasAdSignalSpec row) ∧
    ((heuristic_label row).1 == "lead") = false := by
  refine ⟨c1_label row, c1_tiebreak row, ?_⟩
  rw [c1_label row]
  cases hS : hasSpamSignalSpec row <;> cases hA : hasAdSignalSpec row <;> simp

end FormSpam
